import Mathlib

/-!
# beat-exporter, package `collector`: the Filebeat collector

A shallow embedding of `collector/structs.go` (`BeatInfo`, `Stats`, `Metric`,
`exportedMetrics`, `FilebeatTime.UnmarshalJSON`) and of `collector/filebeat.go` (`Filebeat`,
`buildFileInfoMetrics`, `NewFilebeatCollector`, `Describe`, `Collect`).

Conventions of the embedding.

* A Go pointer that may be nil is an `Option`; dereferencing `none` is the fault
  `Fault.nilDeref` (a Go runtime panic), which stops the running function, as does the
  panic of `MustNewConstMetric` (`Fault.invalidDesc`).
* A `[]byte` / `string` is a `List Char`.
* A `float64` is denoted by the rational number it stands for (`Float64`). The program
  never does arithmetic on a `float64`: it passes decoded fields through and converts
  `int64` Unix seconds with `float64(...)`, which is `float64OfInt64`.
* A channel send `ch <- x` appends `x` to the list of values sent so far.
* `range` over a Go map visits the entries in an unspecified order: the field `Files`
  of a snapshot lists the map's records in the order the pass visits them, and "every
  iteration order" is every permutation of that list.
* Functions of the Go standard library and of the Prometheus client library are not part
  of this package. `time.Parse(time.RFC3339, ·)` is a parameter `parse` of
  `UnmarshalJSON`; `parseRFC3339` is an executable model of it, following the library's
  parser for that layout. `prometheus.NewDesc` records an error in the descriptor when
  the metric name or a label name is invalid, and `prometheus.MustNewConstMetric` panics
  on such a descriptor.
-/

namespace Collector

/-! ## Values of the standard library -/

/-- The value of a Go `float64`, denoted by the rational number it represents. -/
abbrev Float64 := ℚ

/-- Go conversion `float64(n)` of an `int64`: exact up to 53 significant bits, otherwise
rounded to the nearest value with 53 significant bits, ties to even. `sh` is the number
of low bits that do not fit (at most 11 for an `int64`). -/
def float64OfInt64 (n : Int) : Float64 :=
  let a := n.natAbs
  let sh := ((List.range 12).find? (fun s => a / 2 ^ s < 2 ^ 53)).getD 11
  let q := a / 2 ^ sh
  let rem := a % 2 ^ sh
  let r : Nat := (if 2 ^ sh < 2 * rem ∨ (2 * rem = 2 ^ sh ∧ q % 2 = 1) then q + 1 else q) * 2 ^ sh
  if n < 0 then -(r : ℚ) else (r : ℚ)

/-- A Go `time.Time`: an instant (seconds since the Unix epoch, nanoseconds within the
second) together with the zone offset (seconds east of UTC) it is displayed in. -/
structure Time where
  sec : Int
  nsec : Nat
  offset : Int
  deriving DecidableEq, Repr

namespace Time

/-- The zero value `time.Time{}`: January 1, year 1, 00:00:00 UTC. -/
def zero : Time := { sec := -62135596800, nsec := 0, offset := 0 }

/-- Method `t.UTC()`: the same instant, displayed in UTC. -/
def UTC (t : Time) : Time := { t with offset := 0 }

/-- Method `t.Unix()`: seconds elapsed since January 1, 1970 UTC. -/
def Unix (t : Time) : Int := t.sec

end Time

/-- The error value of `time.Parse`: a `*time.ParseError`, carrying the rejected text. -/
structure ParseError where
  value : List Char
  deriving DecidableEq, Repr

/-- The double-quote character (code point 34). -/
def quote : Char := Char.ofNat 34

/-- Go `strings.Trim(s, "\"")`: `s` without its leading and trailing double quotes. -/
def trimQuotes (s : List Char) : List Char :=
  ((s.dropWhile (fun c => c == quote)).reverse.dropWhile (fun c => c == quote)).reverse

/-! ### An executable model of `time.Parse(time.RFC3339, ·)` -/

/-- The value of a decimal digit. -/
def digitVal (c : Char) : Option Nat :=
  if 48 ≤ c.toNat ∧ c.toNat ≤ 57 then some (c.toNat - 48) else none

/-- Exactly two decimal digits. -/
def twoDigits : List Char → Option (Nat × List Char)
  | a :: b :: rest =>
    match digitVal a, digitVal b with
    | some x, some y => some (10 * x + y, rest)
    | _, _ => none
  | _ => none

/-- Exactly four decimal digits. -/
def fourDigits (s : List Char) : Option (Nat × List Char) :=
  match twoDigits s with
  | some (hi, rest) =>
    match twoDigits rest with
    | some (lo, rest') => some (100 * hi + lo, rest')
    | none => none
  | none => none

/-- The given character, then the rest. -/
def expect (c : Char) : List Char → Option (List Char)
  | d :: rest => if d = c then some rest else none
  | [] => none

/-- Gregorian leap year. -/
def isLeap (y : Nat) : Bool := y % 4 = 0 ∧ (y % 100 ≠ 0 ∨ y % 400 = 0)

/-- Number of days of month `m` of year `y`. -/
def daysIn (y m : Nat) : Nat :=
  if m = 2 then (if isLeap y then 29 else 28)
  else if m = 4 ∨ m = 6 ∨ m = 9 ∨ m = 11 then 30 else 31

/-- Days from 1970-01-01 to the civil date `y-m-d` (proleptic Gregorian calendar). -/
def daysFromCivil (y m d : Nat) : Int :=
  let y1 : Int := if m ≤ 2 then (y : Int) - 1 else (y : Int)
  let era : Int := Int.ediv y1 400
  let yoe : Int := y1 - era * 400
  let mp : Int := if 2 < m then (m : Int) - 3 else (m : Int) + 9
  let doy : Int := Int.ediv (153 * mp + 2) 5 + (d : Int) - 1
  let doe : Int := yoe * 365 + Int.ediv yoe 4 - Int.ediv yoe 100 + doy
  era * 146097 + doe - 719468

/-- Go `getnum(s, fixed)`: one or two leading decimal digits (`fixed` forces two) and the
rest of the text. -/
def getnum (s : List Char) (fixed : Bool) : Option (Nat × List Char) :=
  match s with
  | [] => none
  | a :: rest =>
    match digitVal a with
    | none => none
    | some x =>
      match rest with
      | [] => if fixed then none else some (x, rest)
      | b :: rest2 =>
        match digitVal b with
        | some y => some (10 * x + y, rest2)
        | none => if fixed then none else some (x, rest)

/-- Leading decimal digits of a fraction, scaled to nanoseconds: `scale` is the weight of
the next digit; digits beyond the ninth are dropped. -/
def fracDigits : List Char → Nat → Nat → Nat × List Char
  | [], _, acc => (acc, [])
  | c :: rest, scale, acc =>
    match digitVal c with
    | some v => fracDigits rest (scale / 10) (acc + v * scale)
    | none => (acc, c :: rest)

/-- The fractional second `time.Parse` reads after the seconds although the layout has
none: a period or comma followed by at least one digit; any other text is left as it
is. -/
def fraction (s : List Char) : Nat × List Char :=
  match s with
  | c :: d :: rest =>
    if (c = '.' ∨ c = ',') ∧ (digitVal d).isSome then fracDigits (d :: rest) 100000000 0
    else (0, s)
  | _ => (0, s)

/-- The zone of the layout element `Z07:00` as `time.Parse` reads it: `Z`, or a sign,
two digits, a colon and two digits, with an hour of at most 24 and a minute of at most 60
(the library deliberately tests with "greater than"); nothing may follow. Result in
seconds east of UTC. -/
def zone (s : List Char) : Option Int :=
  match s with
  | [] => none
  | c :: rest =>
    if c = 'Z' then (if rest = [] then some 0 else none)
    else
      match twoDigits rest with
      | none => none
      | some (hh, rest1) =>
        match expect ':' rest1 with
        | none => none
        | some rest2 =>
          match twoDigits rest2 with
          | none => none
          | some (mm, rest3) =>
            if (c = '+' ∨ c = '-') ∧ hh ≤ 24 ∧ mm ≤ 60 ∧ rest3 = [] then
              some ((if c = '-' then -1 else 1) * ((hh : Int) * 3600 + (mm : Int) * 60))
            else none

/-- Range check of the date and clock fields (the day against the length of the month). -/
def fieldsValid (y mo d h mi sc : Nat) : Bool :=
  decide (1 ≤ mo) && decide (mo ≤ 12) && decide (1 ≤ d) && decide (d ≤ daysIn y mo)
    && decide (h ≤ 23) && decide (mi ≤ 59) && decide (sc ≤ 59)

/-- The instant of the local date and clock fields read at zone offset `off`. -/
def mkTime (y mo d h mi sc ns : Nat) (off : Int) : Time :=
  { sec := daysFromCivil y mo d * 86400 + (h : Int) * 3600 + (mi : Int) * 60 + (sc : Int) - off,
    nsec := ns, offset := off }

/-- The date part `yyyy-mm-dd` and the separator `T`. -/
def parseDate (s : List Char) : Option ((Nat × Nat × Nat) × List Char) :=
  (fourDigits s).bind fun (y, s1) =>
  (expect '-' s1).bind fun s2 =>
  (twoDigits s2).bind fun (mo, s3) =>
  (expect '-' s3).bind fun s4 =>
  (twoDigits s4).bind fun (d, s5) =>
  (expect 'T' s5).bind fun s6 => some ((y, mo, d), s6)

/-- The minutes and seconds `:mm:ss` that follow the hour. -/
def parseMinSec (s : List Char) : Option ((Nat × Nat) × List Char) :=
  (expect ':' s).bind fun s2 =>
  (twoDigits s2).bind fun (mi, s3) =>
  (expect ':' s3).bind fun s4 =>
  (twoDigits s4).bind fun (sc, s5) => some ((mi, sc), s5)

/-- The clock part as `time.Parse` reads it for the layout `15:04:05`: the hour is read
with `getnum(value, false)`, so one digit is enough. -/
def parseClock (s : List Char) : Option ((Nat × Nat × Nat) × List Char) :=
  (getnum s false).bind fun (h, s1) =>
  (parseMinSec s1).bind fun ((mi, sc), s5) => some ((h, mi, sc), s5)

/-- The fields `time.Parse` reads for the layout `2006-01-02T15:04:05Z07:00`. -/
def parseFields (s : List Char) : Option Time :=
  (parseDate s).bind fun ((y, mo, d), s1) =>
  (parseClock s1).bind fun ((h, mi, sc), s2) =>
  (zone (fraction s2).2).bind fun off =>
  if fieldsValid y mo d h mi sc then some (mkTime y mo d h mi sc (fraction s2).1 off) else none

/-- An executable model of Go `time.Parse(time.RFC3339, s)`: the instant and offset
written in `s`, or a parse error carrying `s`. It follows the library's parser for the
layout `2006-01-02T15:04:05Z07:00`: four-digit year, two-digit month and day, an hour of
one or two digits, two-digit minute and second, an optional fraction after a period or
comma, then `Z` or an offset `±hh:mm` with `hh ≤ 24` and `mm ≤ 60`; month, day, hour,
minute and second are range-checked (no leap second). -/
def parseRFC3339 (s : List Char) : Except ParseError Time :=
  match parseFields s with
  | some t => .ok t
  | none => .error { value := s }

/-! ### The timestamps of RFC 3339 -/

/-- The clock part `hh:mm:ss` of RFC 3339: exactly two digits for the hour. -/
def strictClock (s : List Char) : Option ((Nat × Nat × Nat) × List Char) :=
  (twoDigits s).bind fun (h, s1) =>
  (parseMinSec s1).bind fun ((mi, sc), s5) => some ((h, mi, sc), s5)

/-- The optional `time-secfrac` of RFC 3339: a period and at least one digit. Returns the
text that follows it. -/
def strictFraction (s : List Char) : Option (List Char) :=
  match s with
  | c :: rest =>
    if c = '.' then
      match rest with
      | d :: _ => if (digitVal d).isSome then some (fracDigits rest 100000000 0).2 else none
      | [] => none
    else some s
  | [] => some s

/-- The `time-offset` of RFC 3339, which ends the text: `Z`, or a sign and `hh:mm` with
`hh` from 00 to 23 and `mm` from 00 to 59. -/
def strictZone (s : List Char) : Bool :=
  match s with
  | [] => false
  | c :: rest =>
    if c = 'Z' then decide (rest = [])
    else
      match twoDigits rest with
      | none => false
      | some (hh, rest1) =>
        match expect ':' rest1 with
        | none => false
        | some rest2 =>
          match twoDigits rest2 with
          | none => false
          | some (mm, rest3) =>
            decide ((c = '+' ∨ c = '-') ∧ hh ≤ 23 ∧ mm ≤ 59 ∧ rest3 = [])

/-- A valid RFC 3339 timestamp (`date-time` of section 5.6, with upper-case `T` and `Z` and
no leap second): `yyyy-mm-ddThh:mm:ss`, an optional fraction, then `Z` or `±hh:mm`, every
field with its full number of digits and within its range. These are also the texts that
the strict fast path of `time.Parse` for this layout accepts. -/
def validRFC3339 (s : List Char) : Bool :=
  match parseDate s with
  | none => false
  | some ((y, mo, d), s1) =>
    match strictClock s1 with
    | none => false
    | some ((h, mi, sc), s2) =>
      match strictFraction s2 with
      | none => false
      | some s3 => strictZone s3 && fieldsValid y mo d h mi sc

/-! ## Values of the Prometheus client library -/

/-- Go `prometheus.BuildFQName(namespace, subsystem, name)`: the non-empty components
joined by an underscore; empty whenever `name` is empty. -/
def BuildFQName (ns subsystem name : String) : String :=
  if name = "" then ""
  else if ns ≠ "" ∧ subsystem ≠ "" then ns ++ "_" ++ subsystem ++ "_" ++ name
  else if ns ≠ "" then ns ++ "_" ++ name
  else if subsystem ≠ "" then subsystem ++ "_" ++ name
  else name

/-- Go `prometheus.Labels`: constant label pairs. -/
abbrev Labels := List (String × String)

/-- Go `*prometheus.Desc`: the identity of a metric, its fully-qualified name and
constant labels, with its help text. -/
structure Desc where
  fqName : String
  help : String
  constLabels : Labels
  deriving DecidableEq, Repr

/-- Go `prometheus.NewDesc(fqName, help, nil, constLabels)`. The error it may record in
the descriptor is `Desc.err`, a function of these arguments. -/
def NewDesc (fqName help : String) (constLabels : Labels) : Desc :=
  { fqName := fqName, help := help, constLabels := constLabels }

/-- A first character of a metric name in the library's name check: a letter, an
underscore or a colon. -/
def isNameStart (c : Char) : Bool := c.isAlpha || c == '_' || c == ':'

/-- A later character of a metric name: a first character or a digit. -/
def isNameChar (c : Char) : Bool := isNameStart c || c.isDigit

/-- Go `model.IsValidMetricName(n)` as `NewDesc` applies it: `n` is not empty, starts
with a letter, underscore or colon, and continues with those or digits. -/
def IsValidMetricName (n : String) : Bool :=
  match n.data with
  | [] => false
  | c :: cs => isNameStart c && cs.all isNameChar

/-- Go `checkLabelName(l)`: `l` is not empty, is made of letters, digits and underscores,
does not start with a digit and does not start with two underscores. -/
def checkLabelName (l : String) : Bool :=
  match l.data with
  | [] => false
  | c :: cs =>
    (c.isAlpha || c == '_') && cs.all (fun x => x.isAlpha || x == '_' || x.isDigit)
      && !(c == '_' && cs.head? == some '_')

/-- The field `err` of a `*prometheus.Desc`, as a function of the arguments `NewDesc` was
given: `NewDesc` records an error when the fully-qualified name is not a valid metric name
or a constant label name is not a valid label name (label values are valid UTF-8 in this
embedding, and the help text is not checked). `true` stands for a non-nil error. -/
def Desc.err (d : Desc) : Bool :=
  !IsValidMetricName d.fqName || d.constLabels.any (fun l => !checkLabelName l.1)

/-- Go `prometheus.ValueType`. -/
inductive ValueType where
  | CounterValue
  | GaugeValue
  | UntypedValue
  deriving DecidableEq, Repr

/-- Go `prometheus.Metric` as built by `MustNewConstMetric`: one observation. -/
structure ConstMetric where
  desc : Desc
  valType : ValueType
  value : Float64
  deriving DecidableEq, Repr

/-- A Go panic that stops the running function: the runtime panic of a nil dereference,
or the panic of `MustNewConstMetric` on a descriptor that carries an error. -/
inductive Fault where
  | nilDeref
  | invalidDesc
  deriving DecidableEq, Repr

/-- Go `prometheus.MustNewConstMetric(desc, valueType, value)`: panics when the
descriptor carries an error, otherwise builds the metric. -/
def MustNewConstMetric (desc : Desc) (valueType : ValueType) (value : Float64) :
    Except Fault ConstMetric :=
  if desc.err then .error .invalidDesc
  else .ok { desc := desc, valType := valueType, value := value }

/-! ## `collector/structs.go` -/

/-- Go `BeatInfo`: the beat info JSON structure. -/
structure BeatInfo where
  Beat : String
  Hostname : String
  Name : String
  UUID : String
  Version : String
  deriving DecidableEq, Repr

/-- Go `FilebeatTime`: a struct embedding a `*time.Time`; `none` is the nil pointer. -/
structure FilebeatTime where
  Time : Option Time
  deriving DecidableEq, Repr

namespace FilebeatTime

/-- Go `func (f *FilebeatTime) UnmarshalJSON(b []byte) error`. The receiver is passed in
and the updated receiver returned with the error (`none` is the nil error). `time.Parse`
returns the zero `Time` together with a non-nil error, and `f.Time = &t` is executed in
both cases. -/
def UnmarshalJSON (parse : List Char → Except ParseError Collector.Time) (f : FilebeatTime)
    (b : List Char) : FilebeatTime × Option ParseError :=
  let str := trimQuotes b
  if str = [] then
    ({ f with Time := none }, none)
  else
    match parse str with
    | .ok t => ({ f with Time := some t }, none)
    | .error err => ({ f with Time := some Collector.Time.zero }, some err)

end FilebeatTime

/-! ## `collector/filebeat.go` -/

/-- Go `Filebeat.Events`. -/
structure FilebeatEvents where
  Active : Float64
  Added : Float64
  Done : Float64
  deriving DecidableEq, Repr

/-- The element type of the Go map `Filebeat.Harvester.Files`: one file record. The two
`*FilebeatTime` fields and the `*time.Time` field are pointers (`none` is nil). -/
structure HarvesterFile where
  LastEventPublishedTime : Option FilebeatTime
  LastEventTimestamp : Option FilebeatTime
  Name : String
  ReadOffset : Float64
  Size : Float64
  StartTime : Option Time
  deriving DecidableEq, Repr

/-- Go `Filebeat.Harvester`. `Files` is the map `map[string]struct{...}`, given as its
entries (key, record) in the order `range` visits them. -/
structure FilebeatHarvester where
  Closed : Float64
  OpenFiles : Float64
  Running : Float64
  Skipped : Float64
  Started : Float64
  Files : List (String × HarvesterFile)
  deriving DecidableEq, Repr

/-- Go `Filebeat.Input.Log.Files`. -/
structure InputLogFiles where
  Renamed : Float64
  Truncated : Float64
  deriving DecidableEq, Repr

/-- Go `Filebeat.Input.Log`. -/
structure InputLog where
  Files : InputLogFiles
  deriving DecidableEq, Repr

/-- Go `Filebeat.Input`. -/
structure FilebeatInput where
  Log : InputLog
  deriving DecidableEq, Repr

/-- Go `Filebeat`: the Filebeat JSON structure. -/
structure Filebeat where
  Events : FilebeatEvents
  Harvester : FilebeatHarvester
  Input : FilebeatInput
  deriving DecidableEq, Repr

/-- Go `Stats`: the stats endpoint JSON structure. Of its fields only `Filebeat` is read
by this collector (the others have types declared in other files of the package). -/
structure Stats where
  Filebeat : Filebeat
  deriving DecidableEq, Repr

/-- Go `Metric` / an element of `exportedMetrics`: descriptor, evaluator, value type. The
evaluator receives the `*Stats` pointer (`none` is nil) and may fault. -/
structure Metric where
  desc : Desc
  eval : Option Stats → Except Fault Float64
  valType : ValueType

/-- Go `exportedMetrics`. -/
abbrev exportedMetrics := List Metric

/-- Go `filebeatCollector`. The pointer `beatInfo` is never nil in a collector that
exists: `NewFilebeatCollector` dereferences it. `stats` is the pointer as it is when a
method runs: `some s` when it points at the snapshot `s`, `none` when nil. -/
structure filebeatCollector where
  beatInfo : BeatInfo
  stats : Option Stats
  metrics : exportedMetrics

/-- The variable that a closure created in the body of `for _, info := range ...` reads
when it is called after the loop. Before Go 1.22 (`perLoop`) the loop declares one
variable `info`, assigned at the start of every iteration, so every closure reads the
record of the last iteration. From Go 1.22 (`perIteration`, chosen by the `go` line of the
module file) each iteration declares its own `info`. -/
inductive LoopVar where
  | perLoop
  | perIteration
  deriving DecidableEq, Repr

/-- The record a closure of the loop body reads when evaluated after the loop over
`files`, for a closure created in the iteration whose record is `info`. -/
def capturedInfo (sem : LoopVar) (files : List (String × HarvesterFile))
    (info : HarvesterFile) : HarvesterFile :=
  match sem with
  | .perIteration => info
  | .perLoop =>
    match files.getLast? with
    | some (_, last) => last
    | none => info

/-- Evaluator `func(stats *Stats) float64 { return info.Size }`. -/
def evalSize (info : HarvesterFile) (_stats : Option Stats) : Except Fault Float64 :=
  .ok info.Size

/-- Evaluator of `last_event_published_time`: dereferences the `*FilebeatTime`, then
returns the Unix seconds of its `Time` when that is not nil, else 0. -/
def evalLastEventPublishedTime (info : HarvesterFile) (_stats : Option Stats) :
    Except Fault Float64 :=
  match info.LastEventPublishedTime with
  | none => .error .nilDeref
  | some ft =>
    match ft.Time with
    | some t => .ok (float64OfInt64 t.UTC.Unix)
    | none => .ok 0

/-- Evaluator of `last_event_timestamp`: dereferences the `*FilebeatTime`, then returns
the Unix seconds of its `Time` when that is not nil, else 0. -/
def evalLastEventTimestamp (info : HarvesterFile) (_stats : Option Stats) :
    Except Fault Float64 :=
  match info.LastEventTimestamp with
  | none => .error .nilDeref
  | some ft =>
    match ft.Time with
    | some t => .ok (float64OfInt64 t.UTC.Unix)
    | none => .ok 0

/-- Evaluator `func(stats *Stats) float64 { return float64(info.StartTime.UTC().Unix()) }`:
dereferences the `*time.Time` unconditionally. -/
def evalStartTime (info : HarvesterFile) (_stats : Option Stats) : Except Fault Float64 :=
  match info.StartTime with
  | none => .error .nilDeref
  | some t => .ok (float64OfInt64 t.UTC.Unix)

/-- Evaluator `func(stats *Stats) float64 { return info.ReadOffset }`. -/
def evalReadOffset (info : HarvesterFile) (_stats : Option Stats) : Except Fault Float64 :=
  .ok info.ReadOffset

/-- The five entries appended by one iteration of the loop of `buildFileInfoMetrics`. The
descriptors are built during the iteration from `info.Name`; the evaluators read
`captured`, the value the variable `info` has when they are called. -/
def fileInfoMetrics (beat : String) (info captured : HarvesterFile) : exportedMetrics :=
  [ { desc := NewDesc (BuildFQName beat "harvester" "size_bytes")
        "filebeat.harvester.file.size" [("path", info.Name)],
      eval := evalSize captured,
      valType := .GaugeValue },
    { desc := NewDesc (BuildFQName beat "harvester" "last_event_published_time")
        "filebeat.harvester.file.last_event_published_time" [("path", info.Name)],
      eval := evalLastEventPublishedTime captured,
      valType := .UntypedValue },
    { desc := NewDesc (BuildFQName beat "harvester" "last_event_timestamp")
        "filebeat.harvester.file.last_event_timestamp" [("path", info.Name)],
      eval := evalLastEventTimestamp captured,
      valType := .UntypedValue },
    { desc := NewDesc (BuildFQName beat "harvester" "start_time")
        "filebeat.harvester.file.start_time" [("path", info.Name)],
      eval := evalStartTime captured,
      valType := .UntypedValue },
    { desc := NewDesc (BuildFQName beat "harvester" "file_read_offset")
        "filebeat.harvester.file.file_read_offset" [("path", info.Name)],
      eval := evalReadOffset captured,
      valType := .GaugeValue } ]

/-- The loop of `buildFileInfoMetrics` over the remaining entries: `paths` is the set of
names seen so far, `metrics` the slice built so far. -/
def buildLoop (beat : String) (captured : HarvesterFile → HarvesterFile) :
    List (String × HarvesterFile) → List String → exportedMetrics → exportedMetrics
  | [], _, metrics => metrics
  | (_, info) :: rest, paths, metrics =>
    if info.Name ∈ paths then
      buildLoop beat captured rest paths metrics
    else
      buildLoop beat captured rest (info.Name :: paths)
        (metrics ++ fileInfoMetrics beat info (captured info))

/-- Go `func (c *filebeatCollector) buildFileInfoMetrics() exportedMetrics`. Reading
`c.stats.Filebeat.Harvester.Files` through a nil `c.stats` faults. -/
def buildFileInfoMetrics (sem : LoopVar) (c : filebeatCollector) :
    Except Fault exportedMetrics :=
  match c.stats with
  | none => .error .nilDeref
  | some stats =>
    .ok (buildLoop c.beatInfo.Beat (capturedInfo sem stats.Filebeat.Harvester.Files)
          stats.Filebeat.Harvester.Files [] [])

/-- An evaluator of the fixed catalog, `func(stats *Stats) float64 { return stats.… }`:
dereferences its argument. -/
def evalField (get : Stats → Float64) (stats : Option Stats) : Except Fault Float64 :=
  match stats with
  | none => .error .nilDeref
  | some s => .ok (get s)

/-- The slice literal assigned to `metrics` in `NewFilebeatCollector`. -/
def fixedMetrics (beat : String) : exportedMetrics :=
  [ { desc := NewDesc (BuildFQName beat "filebeat" "events") "filebeat.events"
        [("event", "active")],
      eval := evalField (fun stats => stats.Filebeat.Events.Active),
      valType := .UntypedValue },
    { desc := NewDesc (BuildFQName beat "filebeat" "events") "filebeat.events"
        [("event", "added")],
      eval := evalField (fun stats => stats.Filebeat.Events.Added),
      valType := .UntypedValue },
    { desc := NewDesc (BuildFQName beat "filebeat" "events") "filebeat.events"
        [("event", "done")],
      eval := evalField (fun stats => stats.Filebeat.Events.Done),
      valType := .UntypedValue },
    { desc := NewDesc (BuildFQName beat "filebeat" "harvester") "filebeat.harvester"
        [("harvester", "closed")],
      eval := evalField (fun stats => stats.Filebeat.Harvester.Closed),
      valType := .UntypedValue },
    { desc := NewDesc (BuildFQName beat "filebeat" "harvester") "filebeat.harvester"
        [("harvester", "open_files")],
      eval := evalField (fun stats => stats.Filebeat.Harvester.OpenFiles),
      valType := .UntypedValue },
    { desc := NewDesc (BuildFQName beat "filebeat" "harvester") "filebeat.harvester"
        [("harvester", "running")],
      eval := evalField (fun stats => stats.Filebeat.Harvester.Running),
      valType := .UntypedValue },
    { desc := NewDesc (BuildFQName beat "filebeat" "harvester") "filebeat.harvester"
        [("harvester", "skipped")],
      eval := evalField (fun stats => stats.Filebeat.Harvester.Skipped),
      valType := .UntypedValue },
    { desc := NewDesc (BuildFQName beat "filebeat" "harvester") "filebeat.harvester"
        [("harvester", "started")],
      eval := evalField (fun stats => stats.Filebeat.Harvester.Started),
      valType := .UntypedValue },
    { desc := NewDesc (BuildFQName beat "filebeat" "input_log") "filebeat.input_log"
        [("files", "renamed")],
      eval := evalField (fun stats => stats.Filebeat.Input.Log.Files.Renamed),
      valType := .UntypedValue },
    { desc := NewDesc (BuildFQName beat "filebeat" "input_log") "filebeat.input_log"
        [("files", "truncated")],
      eval := evalField (fun stats => stats.Filebeat.Input.Log.Files.Truncated),
      valType := .UntypedValue } ]

/-- Go `func NewFilebeatCollector(beatInfo *BeatInfo, stats *Stats) prometheus.Collector`,
for a non-nil `beatInfo`. -/
def NewFilebeatCollector (beatInfo : BeatInfo) (stats : Option Stats) : filebeatCollector :=
  { beatInfo := beatInfo, stats := stats, metrics := fixedMetrics beatInfo.Beat }

/-- Go `func (c *filebeatCollector) Describe(ch chan<- *prometheus.Desc)`: the
descriptors sent on `ch`, in order. -/
def Describe (c : filebeatCollector) : List Desc :=
  c.metrics.map (fun metric => metric.desc)

/-- The expression `prometheus.MustNewConstMetric(f.desc, f.valType, f.eval(stats))` of
the loops of `Collect`: the argument `f.eval(stats)` is evaluated first, then
`MustNewConstMetric` is called; either may fault. -/
def newMetric (f : Metric) (stats : Option Stats) : Except Fault ConstMetric :=
  match f.eval stats with
  | .error e => .error e
  | .ok v => MustNewConstMetric f.desc f.valType v

/-- One loop of `Collect` over a slice of entries: for each entry the metric is built
(evaluator, then `MustNewConstMetric`) and then sent; a fault while building it stops the
loop. Returns the values sent, in order, and the fault if there was one. -/
def sendAll : exportedMetrics → Option Stats → List ConstMetric × Option Fault
  | [], _ => ([], none)
  | f :: rest, stats =>
    match newMetric f stats with
    | .error e => ([], some e)
    | .ok metric =>
      let r := sendAll rest stats
      (metric :: r.1, r.2)

/-- Go `func (c *filebeatCollector) Collect(ch chan<- prometheus.Metric)`: the metrics
sent on `ch`, in order, and the fault that ended the pass if there was one. -/
def Collect (sem : LoopVar) (c : filebeatCollector) : List ConstMetric × Option Fault :=
  match buildFileInfoMetrics sem c with
  | .error e => ([], some e)
  | .ok dyn =>
    match sendAll dyn c.stats with
    | (sent, some e) => (sent, some e)
    | (sent, none) =>
      let r := sendAll c.metrics c.stats
      (sent ++ r.1, r.2)

/-! ## Notions used to state the properties -/

/-- The records for which the loop of `buildFileInfoMetrics` appends entries, in order:
those whose name is neither in `paths` nor the name of an earlier record. -/
def firstSeen : List (String × HarvesterFile) → List String → List HarvesterFile
  | [], _ => []
  | (_, info) :: rest, paths =>
    if info.Name ∈ paths then firstSeen rest paths
    else info :: firstSeen rest (info.Name :: paths)

/-- Number of distinct `name` values among the records of a file mapping. -/
def distinctNames (files : List (String × HarvesterFile)) : Nat :=
  ((files.map (fun e => e.2.Name)).dedup).length

/-- A per-file observation: its descriptor carries the constant label `path`. -/
def isPerFile (o : ConstMetric) : Bool :=
  o.desc.constLabels.any (fun l => l.1 == "path")

/-- The snapshot `stats` with the entries of its file mapping visited in the order
`visit`. -/
def withFiles (stats : Stats) (visit : List (String × HarvesterFile)) : Stats :=
  { stats with
    Filebeat := { stats.Filebeat with
      Harvester := { stats.Filebeat.Harvester with Files := visit } } }

/-- The product name (the namespace given to `BuildFQName`) is empty or is itself a valid
metric name: exactly the names for which the descriptors of this collector carry no
error. -/
def validNamespace (beat : String) : Bool := beat == "" || IsValidMetricName beat

/-- No evaluator of `fileInfoMetrics` faults on the record: its three pointers are not
nil. -/
def evalSafe (info : HarvesterFile) : Prop :=
  info.LastEventPublishedTime ≠ none ∧ info.LastEventTimestamp ≠ none ∧ info.StartTime ≠ none

instance (info : HarvesterFile) : Decidable (evalSafe info) := by
  unfold evalSafe; infer_instance

/-- What `encoding/json` stores in a struct field of type `*FilebeatTime` when it decodes
an object: `raw` is the JSON text of the member, `none` when the object has no such
member. A missing member leaves the pointer nil; the literal `null` sets the pointer to
nil without calling `UnmarshalJSON`; for any other value a `FilebeatTime` is allocated and
its `UnmarshalJSON` is called on the text, whose error fails the decode. -/
def decodeFilebeatTimeField (parse : List Char → Except ParseError Time)
    (raw : Option (List Char)) : Except ParseError (Option FilebeatTime) :=
  match raw with
  | none => .ok none
  | some b =>
    if b = "null".toList then .ok none
    else
      match FilebeatTime.UnmarshalJSON parse { Time := none } b with
      | (f, none) => .ok (some f)
      | (_, some err) => .error err

/-- The collector `c` at the time of a pass in which its pointer `stats` points at the
snapshot `s`: the fetcher overwrites the `Stats` value behind the pointer between passes,
the collector itself is not rebuilt. -/
def atSnapshot (c : filebeatCollector) (s : Stats) : filebeatCollector :=
  { c with stats := some s }

/-- Go `t.Equal(u)`: `t` and `u` denote the same instant, whatever offsets they carry. -/
def Time.Equal (t u : Time) : Prop := t.sec = u.sec ∧ t.nsec = u.nsec

instance (t u : Time) : Decidable (Time.Equal t u) := by
  unfold Time.Equal; infer_instance

/-- The identity of a descriptor: its fully-qualified name together with its constant
label set. -/
def Desc.ident (d : Desc) : String × Labels := (d.fqName, d.constLabels)

/-- The descriptors of a slice of entries, in order. -/
def descs (ms : exportedMetrics) : List Desc := ms.map (fun m => m.desc)

/-- The entries of a slice whose descriptor is labelled `path=n`, each shown as its
fully-qualified name and value type. -/
def labelledPath (n : String) (ms : exportedMetrics) : List (String × ValueType) :=
  (ms.filter (fun m => decide (m.desc.constLabels = [("path", n)]))).map
    (fun m => (m.desc.fqName, m.valType))

/-! ## Sample values -/

/-- The instant 2023-01-01T00:00:00Z. -/
def sampleTime : Time := { sec := 1672531200, nsec := 0, offset := 0 }

/-- A `BeatInfo` of the product `filebeat`. -/
def sampleBeat : BeatInfo :=
  { Beat := "filebeat", Hostname := "host", Name := "shipper", UUID := "0000", Version := "7.0.0" }

/-- A file record with the given name, size and start time, whose two `FilebeatTime`
fields were decoded from an empty string and from 2023-01-01T00:00:00Z. -/
def sampleFile (name : String) (size : Float64) (start : Option Time) : HarvesterFile :=
  { LastEventPublishedTime := some { Time := none },
    LastEventTimestamp := some { Time := some sampleTime },
    Name := name, ReadOffset := 7, Size := size, StartTime := start }

/-- A snapshot with `events.active = 42` and the given file mapping. -/
def sampleStats (files : List (String × HarvesterFile)) : Stats :=
  { Filebeat :=
    { Events := { Active := 42, Added := 43, Done := 44 },
      Harvester := { Closed := 1, OpenFiles := 2, Running := 3, Skipped := 4, Started := 5,
                     Files := files },
      Input := { Log := { Files := { Renamed := 6, Truncated := 8 } } } } }

/-- A snapshot in which every scalar is zero and the file mapping is empty. -/
def zeroStats : Stats :=
  { Filebeat :=
    { Events := { Active := 0, Added := 0, Done := 0 },
      Harvester := { Closed := 0, OpenFiles := 0, Running := 0, Skipped := 0, Started := 0,
                     Files := [] },
      Input := { Log := { Files := { Renamed := 0, Truncated := 0 } } } } }

/-- Name, constant labels and value of an observation. -/
def ConstMetric.summary (o : ConstMetric) : String × Labels × Float64 :=
  (o.desc.fqName, o.desc.constLabels, o.value)

end Collector

/-! # Properties -/

namespace Collector

/-! ## Validity of the descriptors -/

theorem isValidMetricName_append (a b : String) (ha : IsValidMetricName a = true)
    (hb : b.data.all isNameChar = true) : IsValidMetricName (a ++ b) = true := by
  unfold IsValidMetricName at ha ⊢
  rw [String.data_append]
  cases hd : a.data with
  | nil => simp [hd] at ha
  | cons c cs =>
    simp only [hd, Bool.and_eq_true] at ha
    simp only [List.cons_append, List.all_append, Bool.and_eq_true]
    exact ⟨ha.1, ha.2, hb⟩

theorem all_isNameChar_of_valid (a : String) (ha : IsValidMetricName a = true) :
    a.data.all isNameChar = true := by
  unfold IsValidMetricName at ha
  cases hd : a.data with
  | nil => simp [hd] at ha
  | cons c cs =>
    simp only [hd, Bool.and_eq_true] at ha
    simp only [List.all_cons, Bool.and_eq_true]
    exact ⟨by simp [isNameChar, ha.1], ha.2⟩

theorem string_ne_empty_of_valid (a : String) (ha : IsValidMetricName a = true) : a ≠ "" := by
  intro h
  subst h
  simp [IsValidMetricName] at ha

/-- The name built by `BuildFQName` from a valid subsystem and a valid field is a valid
metric name exactly when the namespace is empty or is itself a valid metric name. -/
theorem isValidMetricName_BuildFQName (beat sub name : String)
    (hsub : IsValidMetricName sub = true) (hname : IsValidMetricName name = true) :
    IsValidMetricName (BuildFQName beat sub name) = validNamespace beat := by
  have hsubne := string_ne_empty_of_valid sub hsub
  have hne := string_ne_empty_of_valid name hname
  have hsubc := all_isNameChar_of_valid sub hsub
  have hnamec := all_isNameChar_of_valid name hname
  have hu : ("_" : String).data.all isNameChar = true := by decide
  unfold BuildFQName validNamespace
  by_cases hb : beat = ""
  · subst hb
    simp only [hne, hsubne, if_false, ne_eq, not_true_eq_false, false_and, not_false_eq_true,
      if_true, beq_self_eq_true, Bool.true_or]
    exact isValidMetricName_append _ _ (isValidMetricName_append _ _ hsub hu) hnamec
  · have hbeq : (beat == "") = false := by simpa using hb
    simp only [hne, hsubne, hb, if_false, ne_eq, not_false_eq_true, and_self, if_true, hbeq,
      Bool.false_or]
    unfold IsValidMetricName
    simp only [String.data_append]
    cases hd : beat.data with
    | nil => exact absurd (String.ext hd) hb
    | cons c cs =>
      simp only [List.cons_append, List.all_append, hsubc, hnamec, hu, Bool.and_true]

theorem fileInfoMetrics_err (beat : String) (info cap : HarvesterFile) :
    ∀ m ∈ fileInfoMetrics beat info cap, m.desc.err = !validNamespace beat := by
  intro m hm
  simp only [fileInfoMetrics, List.mem_cons, List.mem_singleton, List.not_mem_nil,
    or_false] at hm
  rcases hm with h | h | h | h | h <;> subst h <;>
    simp only [Desc.err, NewDesc, List.any_cons, List.any_nil, Bool.or_false] <;>
    rw [isValidMetricName_BuildFQName _ _ _ (by decide) (by decide)] <;>
    simp [show checkLabelName "path" = true by decide]

theorem fixedMetrics_err (beat : String) :
    ∀ m ∈ fixedMetrics beat, m.desc.err = !validNamespace beat := by
  intro m hm
  simp only [fixedMetrics, List.mem_cons, List.mem_singleton, List.not_mem_nil,
    or_false] at hm
  rcases hm with h | h | h | h | h | h | h | h | h | h <;> subst h <;>
    simp only [Desc.err, NewDesc, List.any_cons, List.any_nil, Bool.or_false] <;>
    rw [isValidMetricName_BuildFQName _ _ _ (by decide) (by decide)] <;>
    simp [show checkLabelName "event" = true by decide,
      show checkLabelName "harvester" = true by decide,
      show checkLabelName "files" = true by decide]

/-! ## The loop of `buildFileInfoMetrics` -/

theorem buildLoop_eq (beat : String) (cap : HarvesterFile → HarvesterFile) :
    ∀ (l : List (String × HarvesterFile)) (paths : List String) (metrics : exportedMetrics),
      buildLoop beat cap l paths metrics
        = metrics ++ (firstSeen l paths).flatMap (fun info => fileInfoMetrics beat info (cap info)) := by
  intro l
  induction l with
  | nil => intro paths metrics; simp [buildLoop, firstSeen]
  | cons e rest ih =>
    intro paths metrics
    obtain ⟨k, info⟩ := e
    by_cases h : info.Name ∈ paths
    · simp [buildLoop, firstSeen, h, ih]
    · simp [buildLoop, firstSeen, h, ih, List.append_assoc]

theorem length_flatMap_fileInfoMetrics (beat : String) (cap : HarvesterFile → HarvesterFile)
    (l : List HarvesterFile) :
    (l.flatMap (fun info => fileInfoMetrics beat info (cap info))).length = 5 * l.length := by
  induction l with
  | nil => simp
  | cons a l ih =>
    simp only [List.flatMap_cons, List.length_append, ih, List.length_cons]
    simp [fileInfoMetrics]
    omega

theorem mem_firstSeen_name (l : List (String × HarvesterFile)) :
    ∀ (paths : List String) (n : String),
      n ∈ (firstSeen l paths).map (fun i => i.Name)
        ↔ n ∈ l.map (fun e => e.2.Name) ∧ n ∉ paths := by
  induction l with
  | nil => intro paths n; simp [firstSeen]
  | cons e rest ih =>
    intro paths n
    obtain ⟨k, info⟩ := e
    by_cases h : info.Name ∈ paths
    · simp only [firstSeen, h, if_true, ih, List.map_cons, List.mem_cons]
      constructor
      · rintro ⟨h1, h2⟩; exact ⟨Or.inr h1, h2⟩
      · rintro ⟨h1 | h1, h2⟩
        · exact absurd (h1 ▸ h) h2
        · exact ⟨h1, h2⟩
    · simp only [firstSeen, h, if_false, ih, List.map_cons, List.mem_cons, not_or]
      constructor
      · rintro (h1 | ⟨h1, h2, h3⟩)
        · exact ⟨Or.inl h1, h1 ▸ h⟩
        · exact ⟨Or.inr h1, h3⟩
      · rintro ⟨h1 | h1, h2⟩
        · exact Or.inl h1
        · by_cases hn : n = info.Name
          · exact Or.inl hn
          · exact Or.inr ⟨h1, hn, h2⟩

theorem nodup_firstSeen_name (l : List (String × HarvesterFile)) :
    ∀ (paths : List String), ((firstSeen l paths).map (fun i => i.Name)).Nodup := by
  induction l with
  | nil => intro paths; simp [firstSeen]
  | cons e rest ih =>
    intro paths
    obtain ⟨k, info⟩ := e
    by_cases h : info.Name ∈ paths
    · simpa [firstSeen, h] using ih paths
    · simp only [firstSeen, h, if_false, List.map_cons, List.nodup_cons]
      refine ⟨?_, ih _⟩
      intro hm
      have := (mem_firstSeen_name rest (info.Name :: paths) info.Name).1 hm
      exact this.2 (List.mem_cons_self _ _)

theorem length_firstSeen (l : List (String × HarvesterFile)) :
    (firstSeen l []).length = distinctNames l := by
  have h1 : ((firstSeen l []).map (fun i => i.Name)).toFinset
      = (l.map (fun e => e.2.Name)).toFinset := by
    ext n
    simp only [List.mem_toFinset]
    rw [mem_firstSeen_name]
    simp
  have h2 := List.toFinset_card_of_nodup (nodup_firstSeen_name l [])
  rw [h1, List.card_toFinset] at h2
  simpa [distinctNames] using h2.symm

theorem distinctNames_perm {l₁ l₂ : List (String × HarvesterFile)} (h : l₁.Perm l₂) :
    distinctNames l₁ = distinctNames l₂ :=
  ((h.map _).dedup).length_eq

theorem distinctNames_le (l : List (String × HarvesterFile)) : distinctNames l ≤ l.length := by
  have := (List.dedup_sublist (l.map (fun e => e.2.Name))).length_le
  simpa [distinctNames] using this

theorem firstSeen_subset (l : List (String × HarvesterFile)) :
    ∀ (paths : List String) (info : HarvesterFile),
      info ∈ firstSeen l paths → info ∈ l.map (fun e => e.2) := by
  induction l with
  | nil => intro paths info h; simp [firstSeen] at h
  | cons e rest ih =>
    intro paths info h
    obtain ⟨k, i⟩ := e
    by_cases hp : i.Name ∈ paths
    · simp only [firstSeen, hp, if_true] at h
      exact List.mem_cons_of_mem _ (ih _ _ h)
    · simp only [firstSeen, hp, if_false, List.mem_cons] at h
      rcases h with h | h
      · subst h; simp
      · exact List.mem_cons_of_mem _ (ih _ _ h)

theorem firstSeen_find (l : List (String × HarvesterFile)) :
    ∀ (paths : List String) (info : HarvesterFile), info ∈ firstSeen l paths →
      ∃ k, l.find? (fun e => e.2.Name == info.Name) = some (k, info) := by
  induction l with
  | nil => intro paths info h; simp [firstSeen] at h
  | cons e rest ih =>
    intro paths info h
    obtain ⟨k, i⟩ := e
    by_cases hp : i.Name ∈ paths
    · simp only [firstSeen, hp, if_true] at h
      have hn : info.Name ∉ paths :=
        ((mem_firstSeen_name rest paths info.Name).1 (List.mem_map.2 ⟨info, h, rfl⟩)).2
      have hne : i.Name ≠ info.Name := fun heq => hn (heq ▸ hp)
      obtain ⟨k', hk⟩ := ih _ _ h
      exact ⟨k', by
        have hb : (i.Name == info.Name) = false := by simpa using hne
        simp [List.find?, hb, hk]⟩
    · simp only [firstSeen, hp, if_false, List.mem_cons] at h
      rcases h with h | h
      · subst h
        exact ⟨k, by simp [List.find?]⟩
      · have hn : info.Name ∉ i.Name :: paths :=
          ((mem_firstSeen_name rest _ info.Name).1 (List.mem_map.2 ⟨info, h, rfl⟩)).2
        have hne : i.Name ≠ info.Name := fun heq => hn (heq ▸ List.mem_cons_self _ _)
        obtain ⟨k', hk⟩ := ih _ _ h
        exact ⟨k', by
        have hb : (i.Name == info.Name) = false := by simpa using hne
        simp [List.find?, hb, hk]⟩

theorem capturedInfo_mem (sem : LoopVar) (files : List (String × HarvesterFile))
    (info : HarvesterFile) (h : info ∈ files.map (fun e => e.2)) :
    capturedInfo sem files info ∈ files.map (fun e => e.2) := by
  cases sem with
  | perIteration => exact h
  | perLoop =>
    unfold capturedInfo
    cases hl : files.getLast? with
    | none => exact h
    | some e =>
      obtain ⟨k, last⟩ := e
      have := List.mem_of_getLast?_eq_some hl
      exact List.mem_map.2 ⟨(k, last), this, rfl⟩

theorem capturedInfo_perIteration (files : List (String × HarvesterFile))
    (info : HarvesterFile) : capturedInfo .perIteration files info = info := rfl

theorem capturedInfo_perLoop (files : List (String × HarvesterFile)) (info : HarvesterFile)
    (k : String) (last : HarvesterFile) (h : files.getLast? = some (k, last)) :
    capturedInfo .perLoop files info = last := by
  simp [capturedInfo, h]

theorem mem_fileInfoMetrics_labels {beat : String} {info cap : HarvesterFile} {m : Metric}
    (h : m ∈ fileInfoMetrics beat info cap) : m.desc.constLabels = [("path", info.Name)] := by
  simp only [fileInfoMetrics, List.mem_cons, List.mem_singleton, List.not_mem_nil, or_false] at h
  rcases h with h | h | h | h | h <;> subst h <;> rfl

theorem eval_ok_of_evalSafe {beat : String} {info cap : HarvesterFile} (hsafe : evalSafe cap)
    {m : Metric} (hm : m ∈ fileInfoMetrics beat info cap) (st : Option Stats) :
    ∃ v, m.eval st = .ok v := by
  obtain ⟨h1, h2, h3⟩ := hsafe
  obtain ⟨p, hp⟩ := Option.ne_none_iff_exists'.1 h1
  obtain ⟨q, hq⟩ := Option.ne_none_iff_exists'.1 h2
  obtain ⟨t, ht⟩ := Option.ne_none_iff_exists'.1 h3
  simp only [fileInfoMetrics, List.mem_cons, List.mem_singleton, List.not_mem_nil, or_false] at hm
  rcases hm with h | h | h | h | h <;> subst h
  · exact ⟨_, rfl⟩
  · cases hpt : p.Time <;> simp [evalLastEventPublishedTime, hp, hpt]
  · cases hqt : q.Time <;> simp [evalLastEventTimestamp, hq, hqt]
  · simp [evalStartTime, ht]
  · exact ⟨_, rfl⟩

theorem withFiles_files (stats : Stats) (visit : List (String × HarvesterFile)) :
    (withFiles stats visit).Filebeat.Harvester.Files = visit := rfl

/-- The entries built by `buildFileInfoMetrics` for a collector whose `stats` points at
a snapshot. -/
theorem buildFileInfoMetrics_eq (sem : LoopVar) (c : filebeatCollector) (s : Stats)
    (hs : c.stats = some s) :
    buildFileInfoMetrics sem c
      = .ok ((firstSeen s.Filebeat.Harvester.Files []).flatMap (fun info =>
          fileInfoMetrics c.beatInfo.Beat info
            (capturedInfo sem s.Filebeat.Harvester.Files info))) := by
  simp [buildFileInfoMetrics, hs, buildLoop_eq]

/-! ## The loops of `Collect` -/

theorem newMetric_ok_iff (f : Metric) (st : Option Stats) (o : ConstMetric) :
    newMetric f st = .ok o
      ↔ f.eval st = .ok o.value ∧ f.desc.err = false ∧ o.desc = f.desc
        ∧ o.valType = f.valType := by
  unfold newMetric MustNewConstMetric
  cases hf : f.eval st with
  | error e => simp
  | ok v =>
    cases he : f.desc.err with
    | true => simp
    | false =>
      simp only [Bool.false_eq_true, if_false, Except.ok.injEq, true_and]
      constructor
      · rintro rfl; exact ⟨rfl, rfl, rfl⟩
      · rintro ⟨h1, h2, h3⟩
        cases o
        simp_all

theorem sendAll_cons_ok {f : Metric} {rest : exportedMetrics} {st : Option Stats}
    {o : ConstMetric} (h : newMetric f st = .ok o) :
    sendAll (f :: rest) st = (o :: (sendAll rest st).1, (sendAll rest st).2) := by
  simp [sendAll, h]

theorem sendAll_cons_error {f : Metric} {rest : exportedMetrics} {st : Option Stats}
    {e : Fault} (h : newMetric f st = .error e) : sendAll (f :: rest) st = ([], some e) := by
  simp [sendAll, h]

theorem sendAll_forall₂ {ms : exportedMetrics} {st : Option Stats}
    (h : (sendAll ms st).2 = none) :
    List.Forall₂ (fun o m => newMetric m st = .ok o) (sendAll ms st).1 ms := by
  induction ms with
  | nil => simp [sendAll]
  | cons f rest ih =>
    cases hf : newMetric f st with
    | error e => simp [sendAll_cons_error hf] at h
    | ok o =>
      rw [sendAll_cons_ok hf] at h ⊢
      exact List.Forall₂.cons hf (ih h)

theorem sendAll_fault_split {ms : exportedMetrics} {st : Option Stats} {e : Fault}
    (h : (sendAll ms st).2 = some e) :
    ∃ pre m post, ms = pre ++ m :: post
      ∧ List.Forall₂ (fun o m => newMetric m st = .ok o) (sendAll ms st).1 pre
      ∧ newMetric m st = .error e := by
  induction ms with
  | nil => simp [sendAll] at h
  | cons f rest ih =>
    cases hf : newMetric f st with
    | error e' =>
      rw [sendAll_cons_error hf] at h ⊢
      simp only [Option.some.injEq] at h
      subst h
      exact ⟨[], f, rest, rfl, List.Forall₂.nil, hf⟩
    | ok o =>
      rw [sendAll_cons_ok hf] at h ⊢
      obtain ⟨pre, m, post, h1, h2, h3⟩ := ih h
      exact ⟨f :: pre, m, post, by rw [h1]; rfl, List.Forall₂.cons hf h2, h3⟩

theorem sendAll_mem {ms : exportedMetrics} {st : Option Stats} {o : ConstMetric}
    (h : o ∈ (sendAll ms st).1) :
    ∃ m ∈ ms, m.eval st = .ok o.value ∧ o.desc = m.desc ∧ o.valType = m.valType := by
  induction ms with
  | nil => simp [sendAll] at h
  | cons f rest ih =>
    cases hf : newMetric f st with
    | error e => simp [sendAll_cons_error hf] at h
    | ok o' =>
      rw [sendAll_cons_ok hf] at h
      rcases List.mem_cons.1 h with h | h
      · subst h
        obtain ⟨h1, -, h3, h4⟩ := (newMetric_ok_iff f st o).1 hf
        exact ⟨f, List.mem_cons_self _ _, h1, h3, h4⟩
      · obtain ⟨m, hm, h1⟩ := ih h
        exact ⟨m, List.mem_cons_of_mem _ hm, h1⟩

theorem sendAll_descs {ms : exportedMetrics} {st : Option Stats}
    (h : (sendAll ms st).2 = none) :
    (sendAll ms st).1.map (fun o => o.desc) = ms.map (fun m => m.desc) := by
  induction ms with
  | nil => simp [sendAll]
  | cons f rest ih =>
    cases hf : newMetric f st with
    | error e => simp [sendAll_cons_error hf] at h
    | ok o =>
      rw [sendAll_cons_ok hf] at h ⊢
      have hd := ((newMetric_ok_iff f st o).1 hf).2.2.1
      simp [hd, ih h]

theorem sendAll_length {ms : exportedMetrics} {st : Option Stats}
    (h : (sendAll ms st).2 = none) : (sendAll ms st).1.length = ms.length := by
  have := congrArg List.length (sendAll_descs h)
  simpa using this

theorem sendAll_no_fault {ms : exportedMetrics} {st : Option Stats}
    (h : ∀ m ∈ ms, (∃ v, m.eval st = .ok v) ∧ m.desc.err = false) :
    (sendAll ms st).2 = none := by
  induction ms with
  | nil => simp [sendAll]
  | cons f rest ih =>
    obtain ⟨⟨v, hv⟩, he⟩ := h f (List.mem_cons_self _ _)
    have hf : newMetric f st = .ok { desc := f.desc, valType := f.valType, value := v } :=
      (newMetric_ok_iff f st _).2 ⟨hv, he, rfl, rfl⟩
    rw [sendAll_cons_ok hf]
    exact ih (fun m hm => h m (List.mem_cons_of_mem _ hm))

theorem sendAll_all_ok {ms : exportedMetrics} {st : Option Stats}
    (h : (sendAll ms st).2 = none) :
    ∀ m ∈ ms, (∃ v, m.eval st = .ok v) ∧ m.desc.err = false := by
  induction ms with
  | nil => intro m hm; simp at hm
  | cons f rest ih =>
    intro m hm
    cases hf : newMetric f st with
    | error e => simp [sendAll_cons_error hf] at h
    | ok o =>
      rw [sendAll_cons_ok hf] at h
      rcases List.mem_cons.1 hm with e | e
      · subst e
        obtain ⟨h1, h2, -⟩ := (newMetric_ok_iff m st o).1 hf
        exact ⟨⟨_, h1⟩, h2⟩
      · exact ih h m e

theorem sendAll_descs_initial (ms : exportedMetrics) (st : Option Stats) :
    (sendAll ms st).1.map (fun o => o.desc) <+: descs ms := by
  induction ms with
  | nil => simp [sendAll, descs]
  | cons f rest ih =>
    cases hf : newMetric f st with
    | error e => simp [sendAll_cons_error hf]
    | ok o =>
      rw [sendAll_cons_ok hf]
      have hd := ((newMetric_ok_iff f st o).1 hf).2.2.1
      simp only [descs, List.map_cons, hd]
      exact (List.prefix_cons_inj _).2 ih

theorem sendAll_length_lt {ms : exportedMetrics} {st : Option Stats} {e : Fault}
    (h : (sendAll ms st).2 = some e) : (sendAll ms st).1.length < ms.length := by
  obtain ⟨pre, m, post, h1, h2, -⟩ := sendAll_fault_split h
  rw [h2.length_eq]
  conv_rhs => rw [h1]
  simp

theorem sendAll_append (a b : exportedMetrics) (st : Option Stats) :
    sendAll (a ++ b) st
      = (match (sendAll a st).2 with
         | some e => ((sendAll a st).1, some e)
         | none => ((sendAll a st).1 ++ (sendAll b st).1, (sendAll b st).2)) := by
  induction a with
  | nil => simp [sendAll]
  | cons f rest ih =>
    cases hf : newMetric f st with
    | error e => simp [sendAll_cons_error hf]
    | ok o =>
      rw [List.cons_append, sendAll_cons_ok hf, sendAll_cons_ok hf, ih]
      cases (sendAll rest st).2 <;> simp

/-- A pass of `Collect` with a snapshot attached is one loop over the per-file entries
followed by the entries of `c.metrics`. -/
theorem collect_eq_sendAll (sem : LoopVar) (c : filebeatCollector) (s : Stats)
    (hs : c.stats = some s) :
    Collect sem c
      = sendAll ((firstSeen s.Filebeat.Harvester.Files []).flatMap (fun info =>
            fileInfoMetrics c.beatInfo.Beat info
              (capturedInfo sem s.Filebeat.Harvester.Files info)) ++ c.metrics) (some s) := by
  rw [sendAll_append]
  unfold Collect
  rw [buildFileInfoMetrics_eq sem c s hs, hs]
  rcases h : sendAll ((firstSeen s.Filebeat.Harvester.Files []).flatMap (fun info =>
      fileInfoMetrics c.beatInfo.Beat info
        (capturedInfo sem s.Filebeat.Harvester.Files info))) (some s) with ⟨sent, _ | e⟩ <;>
    simp [h]

theorem sendAll_eq_map {ms : exportedMetrics} {st : Option Stats}
    (h : (sendAll ms st).2 = none) :
    (sendAll ms st).1
      = ms.map (fun m => { desc := m.desc, valType := m.valType,
                           value := ((m.eval st).toOption).getD 0 }) := by
  induction ms with
  | nil => simp [sendAll]
  | cons f rest ih =>
    cases hf : newMetric f st with
    | error e => simp [sendAll_cons_error hf] at h
    | ok o =>
      rw [sendAll_cons_ok hf] at h ⊢
      obtain ⟨h1, -, h3, h4⟩ := (newMetric_ok_iff f st o).1 hf
      rw [List.map_cons, ih h]
      cases o
      simp_all [Except.toOption]

theorem isPerFile_filter_length (sent : List ConstMetric) :
    (sent.filter isPerFile).length
      = ((sent.map (fun o => o.desc)).filter
          (fun d => d.constLabels.any (fun l => l.1 == "path"))).length := by
  induction sent with
  | nil => rfl
  | cons o rest ih =>
    by_cases h : isPerFile o = true
    · have h' : o.desc.constLabels.any (fun l => l.1 == "path") = true := h
      simp [List.filter_cons, h, h', ih]
    · have h' : ¬ o.desc.constLabels.any (fun l => l.1 == "path") = true := h
      simp [List.filter_cons, h, h', ih]

theorem filter_path_dyn (beat : String) (cap : HarvesterFile → HarvesterFile)
    (l : List HarvesterFile) :
    (descs (l.flatMap (fun info => fileInfoMetrics beat info (cap info)))).filter
        (fun d => d.constLabels.any (fun l => l.1 == "path"))
      = descs (l.flatMap (fun info => fileInfoMetrics beat info (cap info))) := by
  rw [List.filter_eq_self]
  intro d hd
  obtain ⟨m, hm, rfl⟩ := List.mem_map.1 hd
  obtain ⟨info, -, hmi⟩ := List.mem_flatMap.1 hm
  simp [mem_fileInfoMetrics_labels hmi]

theorem filter_path_fixed (beat : String) :
    (descs (fixedMetrics beat)).filter (fun d => d.constLabels.any (fun l => l.1 == "path"))
      = [] := by
  simp [descs, fixedMetrics, NewDesc]

theorem isPerFile_dyn {beat : String} {cap : HarvesterFile → HarvesterFile}
    {l : List HarvesterFile} {st : Option Stats} :
    (sendAll (l.flatMap (fun info => fileInfoMetrics beat info (cap info))) st).1.filter isPerFile
      = (sendAll (l.flatMap (fun info => fileInfoMetrics beat info (cap info))) st).1 := by
  rw [List.filter_eq_self]
  intro o ho
  obtain ⟨m, hm, -, hd, -⟩ := sendAll_mem ho
  obtain ⟨info, -, hmi⟩ := List.mem_flatMap.1 hm
  have := mem_fileInfoMetrics_labels hmi
  simp [isPerFile, hd, this]

theorem isPerFile_fixed (beat : String) (s : Stats) :
    (sendAll (fixedMetrics beat) (some s)).1.filter isPerFile = [] := by
  rw [List.filter_eq_nil_iff]
  intro o ho
  obtain ⟨m, hm, -, hd, -⟩ := sendAll_mem ho
  have hmem : m.desc ∈ descs (fixedMetrics beat) := List.mem_map.2 ⟨m, hm, rfl⟩
  have hnil := filter_path_fixed beat
  rw [List.filter_eq_nil_iff] at hnil
  have := hnil m.desc hmem
  simpa [isPerFile, hd] using this

theorem fixedMetrics_eval_ok (beat : String) (s : Stats) :
    ∀ m ∈ fixedMetrics beat, ∃ v, m.eval (some s) = .ok v := by
  intro m hm
  simp only [fixedMetrics, List.mem_cons, List.mem_singleton, List.not_mem_nil,
    or_false] at hm
  rcases hm with h | h | h | h | h | h | h | h | h | h <;> subst h <;> exact ⟨_, rfl⟩

/-- The loop over the fixed catalog, with a snapshot attached: it sends all ten
observations when the namespace is valid, and faults on the first descriptor, having sent
nothing, when it is not. -/
theorem sendAll_fixed (beat : String) (s : Stats) :
    (validNamespace beat = true → (sendAll (fixedMetrics beat) (some s)).2 = none)
    ∧ (validNamespace beat = false →
        sendAll (fixedMetrics beat) (some s) = ([], some .invalidDesc)) := by
  constructor
  · intro hv
    apply sendAll_no_fault
    intro m hm
    exact ⟨fixedMetrics_eval_ok beat s m hm, by rw [fixedMetrics_err beat m hm, hv]; rfl⟩
  · intro hv
    have herr := fixedMetrics_err beat _ (List.mem_cons_self _ _ : _ ∈ fixedMetrics beat)
    rw [hv] at herr
    exact sendAll_cons_error (by
      simp only [newMetric, evalField, MustNewConstMetric, herr, Bool.not_false, if_true])

theorem dyn_all_ok (sem : LoopVar) (beat : String) (files : List (String × HarvesterFile))
    (st : Option Stats) (hv : validNamespace beat = true)
    (hsafe : ∀ e ∈ files, evalSafe e.2) :
    ∀ m ∈ (firstSeen files []).flatMap (fun info =>
        fileInfoMetrics beat info (capturedInfo sem files info)),
      (∃ v, m.eval st = .ok v) ∧ m.desc.err = false := by
  intro m hm
  obtain ⟨info, hinfo, hmi⟩ := List.mem_flatMap.1 hm
  have hmem := capturedInfo_mem sem files info (firstSeen_subset _ _ _ hinfo)
  obtain ⟨e, he, hee⟩ := List.mem_map.1 hmem
  exact ⟨eval_ok_of_evalSafe (hee ▸ hsafe e he) hmi _,
    by rw [fileInfoMetrics_err beat _ _ m hmi, hv]; rfl⟩

theorem collect_no_fault_of_evalSafe (sem : LoopVar) (c : filebeatCollector) (s : Stats)
    (hs : c.stats = some s) (hm : c.metrics = fixedMetrics c.beatInfo.Beat)
    (hv : validNamespace c.beatInfo.Beat = true)
    (hsafe : ∀ e ∈ s.Filebeat.Harvester.Files, evalSafe e.2) :
    (Collect sem c).2 = none := by
  rw [collect_eq_sendAll sem c s hs, hm]
  apply sendAll_no_fault
  intro m hmem
  rcases List.mem_append.1 hmem with h | h
  · exact dyn_all_ok sem _ _ _ hv hsafe m h
  · exact ⟨fixedMetrics_eval_ok _ s m h, by rw [fixedMetrics_err _ m h, hv]; rfl⟩

theorem collect_descs_of_no_fault (sem : LoopVar) (c : filebeatCollector) (s : Stats)
    (hs : c.stats = some s) (hnone : (Collect sem c).2 = none) :
    (Collect sem c).1.map (fun o => o.desc)
      = descs ((firstSeen s.Filebeat.Harvester.Files []).flatMap (fun info =>
            fileInfoMetrics c.beatInfo.Beat info
              (capturedInfo sem s.Filebeat.Harvester.Files info)))
        ++ descs c.metrics := by
  rw [collect_eq_sendAll sem c s hs] at hnone ⊢
  rw [sendAll_descs hnone, List.map_append]
  rfl

theorem collect_perFile_length (sem : LoopVar) (c : filebeatCollector) (s : Stats)
    (hs : c.stats = some s) (hm : c.metrics = fixedMetrics c.beatInfo.Beat)
    (hnone : (Collect sem c).2 = none) :
    ((Collect sem c).1.filter isPerFile).length = 5 * distinctNames s.Filebeat.Harvester.Files := by
  rw [isPerFile_filter_length, collect_descs_of_no_fault sem c s hs hnone, List.filter_append,
    filter_path_dyn, hm, filter_path_fixed, List.append_nil, descs, List.length_map,
    length_flatMap_fileInfoMetrics, length_firstSeen]

theorem collect_mem (sem : LoopVar) (c : filebeatCollector) (s : Stats)
    (hs : c.stats = some s) {o : ConstMetric} (ho : o ∈ (Collect sem c).1) :
    ∃ m, (m ∈ (firstSeen s.Filebeat.Harvester.Files []).flatMap (fun info =>
            fileInfoMetrics c.beatInfo.Beat info
              (capturedInfo sem s.Filebeat.Harvester.Files info))
          ∨ m ∈ c.metrics)
      ∧ m.eval (some s) = .ok o.value ∧ o.desc = m.desc ∧ o.valType = m.valType := by
  rw [collect_eq_sendAll sem c s hs] at ho
  obtain ⟨m, hm, h⟩ := sendAll_mem ho
  exact ⟨m, List.mem_append.1 hm, h⟩

/-! ## Per-file observations of `Collect` (C1, C2) -/

/-- C1, as stated, fails: a snapshot whose file mapping holds one record (`a.log`, so
N = M = 1) with an absent `start_time`. Under either loop-variable semantics `Collect`
sends the three per-file observations that precede `start_time` and then faults: three,
not 5 * M = 5. And with the product name `my-beat`, which is not a valid metric name,
`MustNewConstMetric` panics on the first descriptor of a record whose timestamps are all
present: nothing is sent. -/
theorem collect_perFile_count_counterexample :
    distinctNames [("key1", sampleFile "a.log" 100 none)] = 1
    ∧ Collect .perLoop (NewFilebeatCollector sampleBeat
          (some (sampleStats [("key1", sampleFile "a.log" 100 none)])))
        = Collect .perIteration (NewFilebeatCollector sampleBeat
          (some (sampleStats [("key1", sampleFile "a.log" 100 none)])))
    ∧ (Collect .perLoop (NewFilebeatCollector sampleBeat
          (some (sampleStats [("key1", sampleFile "a.log" 100 none)])))).2 = some .nilDeref
    ∧ ((Collect .perLoop (NewFilebeatCollector sampleBeat
          (some (sampleStats [("key1", sampleFile "a.log" 100 none)])))).1.filter
          isPerFile).map ConstMetric.summary
        = [("filebeat_harvester_size_bytes", [("path", "a.log")], 100),
           ("filebeat_harvester_last_event_published_time", [("path", "a.log")], 0),
           ("filebeat_harvester_last_event_timestamp", [("path", "a.log")], 1672531200)]
    ∧ ¬ ((Collect .perLoop (NewFilebeatCollector sampleBeat
          (some (sampleStats [("key1", sampleFile "a.log" 100 none)])))).1.filter
          isPerFile).length
        = 5 * distinctNames [("key1", sampleFile "a.log" 100 none)]
    ∧ Collect .perLoop (NewFilebeatCollector { sampleBeat with Beat := "my-beat" }
          (some (sampleStats [("key1", sampleFile "a.log" 100 (some sampleTime))])))
        = ([], some .invalidDesc) := by
  refine ⟨?_, ?_, ?_, ?_, ?_, ?_⟩ <;> decide

/-- C1 (amended): for every snapshot whose file mapping holds N records sharing M distinct
names, every order `visit` in which a pass visits the mapping, and either loop-variable
semantics: M ≤ N; `buildFileInfoMetrics` builds exactly 5 * M entries; when the pass ends
without a fault, `Collect` has sent exactly 5 * M per-file observations, which is not 5 * N
when M < N; and the pass ends without a fault whenever the product name is empty or a
valid metric name and no record of the mapping has a nil timestamp pointer. -/
theorem collect_perFile_count (sem : LoopVar) (beatInfo : BeatInfo) (stats : Stats)
    (visit : List (String × HarvesterFile))
    (hperm : visit.Perm stats.Filebeat.Harvester.Files) :
    distinctNames stats.Filebeat.Harvester.Files ≤ stats.Filebeat.Harvester.Files.length
    ∧ (∃ dyn, buildFileInfoMetrics sem (NewFilebeatCollector beatInfo (some (withFiles stats visit)))
          = .ok dyn ∧ dyn.length = 5 * distinctNames stats.Filebeat.Harvester.Files)
    ∧ ((Collect sem (NewFilebeatCollector beatInfo (some (withFiles stats visit)))).2 = none →
        ((Collect sem (NewFilebeatCollector beatInfo (some (withFiles stats visit)))).1.filter
            isPerFile).length = 5 * distinctNames stats.Filebeat.Harvester.Files
        ∧ (distinctNames stats.Filebeat.Harvester.Files < stats.Filebeat.Harvester.Files.length →
            ((Collect sem (NewFilebeatCollector beatInfo (some (withFiles stats visit)))).1.filter
              isPerFile).length ≠ 5 * stats.Filebeat.Harvester.Files.length))
    ∧ (validNamespace beatInfo.Beat = true → (∀ e ∈ visit, evalSafe e.2) →
        (Collect sem (NewFilebeatCollector beatInfo (some (withFiles stats visit)))).2 = none) := by
  have hM : distinctNames (withFiles stats visit).Filebeat.Harvester.Files
      = distinctNames stats.Filebeat.Harvester.Files := distinctNames_perm hperm
  refine ⟨distinctNames_le _, ⟨_, buildFileInfoMetrics_eq sem _ _ rfl, ?_⟩, ?_, ?_⟩
  · rw [length_flatMap_fileInfoMetrics, length_firstSeen, hM]
  · intro hnone
    have h := collect_perFile_length sem _ (withFiles stats visit) rfl rfl hnone
    rw [hM] at h
    exact ⟨h, fun hlt => by omega⟩
  · intro hvalid hsafe
    exact collect_no_fault_of_evalSafe sem _ (withFiles stats visit) rfl rfl hvalid hsafe

/-- Witness of C1 (amended): a mapping of three records (`a.log` twice, `b.log` once),
visited with its first two entries exchanged, for the product `filebeat`: N = 3, M = 2,
no fault (the product name is valid and every timestamp pointer is present), ten per-file
observations. -/
theorem collect_perFile_count_witness :
    distinctNames [("key1", sampleFile "a.log" 100 (some sampleTime)),
                   ("key2", sampleFile "a.log" 999 (some sampleTime)),
                   ("key3", sampleFile "b.log" 555 (some sampleTime))] = 2
    ∧ ((Collect .perLoop (NewFilebeatCollector sampleBeat
          (some (withFiles
            (sampleStats [("key1", sampleFile "a.log" 100 (some sampleTime)),
                          ("key2", sampleFile "a.log" 999 (some sampleTime)),
                          ("key3", sampleFile "b.log" 555 (some sampleTime))])
            [("key2", sampleFile "a.log" 999 (some sampleTime)),
             ("key1", sampleFile "a.log" 100 (some sampleTime)),
             ("key3", sampleFile "b.log" 555 (some sampleTime))])))).1.filter
          isPerFile).length
        = 5 * distinctNames [("key1", sampleFile "a.log" 100 (some sampleTime)),
                             ("key2", sampleFile "a.log" 999 (some sampleTime)),
                             ("key3", sampleFile "b.log" 555 (some sampleTime))] :=
  ⟨by decide,
   ((collect_perFile_count .perLoop sampleBeat
      (sampleStats [("key1", sampleFile "a.log" 100 (some sampleTime)),
                    ("key2", sampleFile "a.log" 999 (some sampleTime)),
                    ("key3", sampleFile "b.log" 555 (some sampleTime))])
      [("key2", sampleFile "a.log" 999 (some sampleTime)),
       ("key1", sampleFile "a.log" 100 (some sampleTime)),
       ("key3", sampleFile "b.log" 555 (some sampleTime))]
      (List.Perm.swap _ _ _)).2.2.1
      ((collect_perFile_count .perLoop sampleBeat
        (sampleStats [("key1", sampleFile "a.log" 100 (some sampleTime)),
                      ("key2", sampleFile "a.log" 999 (some sampleTime)),
                      ("key3", sampleFile "b.log" 555 (some sampleTime))])
        [("key2", sampleFile "a.log" 999 (some sampleTime)),
         ("key1", sampleFile "a.log" 100 (some sampleTime)),
         ("key3", sampleFile "b.log" 555 (some sampleTime))]
        (List.Perm.swap _ _ _)).2.2.2 (by decide) (by decide))).1⟩

/-- C2: the code at the failing inputs, with the loop variable shared by all iterations
(`perLoop`, Go before 1.22). For the mapping of the specification, `key1` (`a.log`, size
100) visited before `key2` (`a.log`, size 999), the five observations labelled `a.log`
carry the values of `key2`, the record visited last, not of the first record named
`a.log`. For two differently named files (`a.log` of size 100, then `b.log` of size 555)
the size observation of `a.log` is 555, the size of `b.log`. With a variable per iteration
(`perIteration`) the same passes send 100 for `a.log`. -/
theorem collect_perLoop_reads_last_record :
    ((Collect .perLoop (NewFilebeatCollector sampleBeat
        (some (sampleStats [("key1", sampleFile "a.log" 100 (some sampleTime)),
                            ("key2", sampleFile "a.log" 999 (some sampleTime))])))).1.filter
        isPerFile).map ConstMetric.summary
      = [("filebeat_harvester_size_bytes", [("path", "a.log")], 999),
         ("filebeat_harvester_last_event_published_time", [("path", "a.log")], 0),
         ("filebeat_harvester_last_event_timestamp", [("path", "a.log")], 1672531200),
         ("filebeat_harvester_start_time", [("path", "a.log")], 1672531200),
         ("filebeat_harvester_file_read_offset", [("path", "a.log")], 7)]
    ∧ (((Collect .perLoop (NewFilebeatCollector sampleBeat
        (some (sampleStats [("key1", sampleFile "a.log" 100 (some sampleTime)),
                            ("key2", sampleFile "b.log" 555 (some sampleTime))])))).1.filter
        isPerFile).filter (fun o => o.desc.help == "filebeat.harvester.file.size")).map
          ConstMetric.summary
      = [("filebeat_harvester_size_bytes", [("path", "a.log")], 555),
         ("filebeat_harvester_size_bytes", [("path", "b.log")], 555)]
    ∧ (((Collect .perIteration (NewFilebeatCollector sampleBeat
        (some (sampleStats [("key1", sampleFile "a.log" 100 (some sampleTime)),
                            ("key2", sampleFile "a.log" 999 (some sampleTime))])))).1.filter
        isPerFile).filter (fun o => o.desc.help == "filebeat.harvester.file.size")).map
          ConstMetric.summary
      = [("filebeat_harvester_size_bytes", [("path", "a.log")], 100)]
    ∧ (((Collect .perIteration (NewFilebeatCollector sampleBeat
        (some (sampleStats [("key1", sampleFile "a.log" 100 (some sampleTime)),
                            ("key2", sampleFile "b.log" 555 (some sampleTime))])))).1.filter
        isPerFile).filter (fun o => o.desc.help == "filebeat.harvester.file.size")).map
          ConstMetric.summary
      = [("filebeat_harvester_size_bytes", [("path", "a.log")], 100),
         ("filebeat_harvester_size_bytes", [("path", "b.log")], 555)] := by
  refine ⟨?_, ?_, ?_, ?_⟩ <;> decide

/-! ## The fixed catalog (C3, C4, C9) -/

/-- C3, as stated, fails: on a snapshot with an empty file mapping `Collect` sends ten
observations, the ten entries of the catalog built by `NewFilebeatCollector`, not eleven.
And with the product name `my-beat`, which is not a valid metric name,
`MustNewConstMetric` panics on the first fixed descriptor: nothing is sent. -/
theorem collect_empty_files_counterexample :
    (Collect .perLoop (NewFilebeatCollector sampleBeat (some (sampleStats [])))).1.length = 10
    ∧ (Collect .perIteration (NewFilebeatCollector sampleBeat (some (sampleStats [])))).1.length
        = 10
    ∧ (NewFilebeatCollector sampleBeat (some (sampleStats []))).metrics.length = 10
    ∧ ¬ (Collect .perLoop (NewFilebeatCollector sampleBeat (some (sampleStats [])))).1.length
        = 11
    ∧ Collect .perLoop (NewFilebeatCollector { sampleBeat with Beat := "my-beat" }
          (some (sampleStats [])))
        = ([], some .invalidDesc) := by
  refine ⟨?_, ?_, ?_, ?_, ?_⟩ <;> decide

/-- C3 (amended): for every `BeatInfo` whose product name is empty or a valid metric name,
every snapshot with an empty file mapping and either loop-variable semantics, `Collect` ends without a fault and sends exactly the ten
observations of the fixed catalog built by `NewFilebeatCollector`, in catalog order (3
events, 5 harvester states, 2 input-log file kinds), and no per-file observation. -/
theorem collect_empty_files (sem : LoopVar) (beatInfo : BeatInfo) (stats0 : Option Stats)
    (s : Stats) (hvalid : validNamespace beatInfo.Beat = true)
    (hempty : s.Filebeat.Harvester.Files = []) :
    (Collect sem (atSnapshot (NewFilebeatCollector beatInfo stats0) s)).2 = none
    ∧ (Collect sem (atSnapshot (NewFilebeatCollector beatInfo stats0) s)).1
        = (sendAll (NewFilebeatCollector beatInfo stats0).metrics (some s)).1
    ∧ (Collect sem (atSnapshot (NewFilebeatCollector beatInfo stats0) s)).1.length = 10
    ∧ (Collect sem (atSnapshot (NewFilebeatCollector beatInfo stats0) s)).1.map
          (fun o => o.desc) = Describe (NewFilebeatCollector beatInfo stats0)
    ∧ (Collect sem (atSnapshot (NewFilebeatCollector beatInfo stats0) s)).1.map
          (fun o => o.desc.constLabels)
        = [[("event", "active")], [("event", "added")], [("event", "done")],
           [("harvester", "closed")], [("harvester", "open_files")],
           [("harvester", "running")], [("harvester", "skipped")],
           [("harvester", "started")],
           [("files", "renamed")], [("files", "truncated")]]
    ∧ (Collect sem (atSnapshot (NewFilebeatCollector beatInfo stats0) s)).1.filter isPerFile
        = [] := by
  have h : Collect sem (atSnapshot (NewFilebeatCollector beatInfo stats0) s)
      = sendAll (fixedMetrics beatInfo.Beat) (some s) := by
    rw [collect_eq_sendAll sem _ s rfl, hempty]
    rfl
  have hnone := (sendAll_fixed beatInfo.Beat s).1 hvalid
  have hd := sendAll_descs hnone
  rw [h]
  refine ⟨hnone, rfl, ?_, hd, ?_, isPerFile_fixed _ _⟩
  · rw [sendAll_length hnone]; rfl
  · have hl := congrArg (List.map (fun d : Desc => d.constLabels)) hd
    rw [List.map_map] at hl
    exact hl

/-- Witness of C3 (amended): the snapshot with `events.active = 42` and an empty mapping,
on a collector of the product `filebeat` built before any snapshot was attached. -/
theorem collect_empty_files_witness :
    (Collect .perLoop (atSnapshot (NewFilebeatCollector sampleBeat none) (sampleStats []))).2
        = none
    ∧ (Collect .perLoop (atSnapshot (NewFilebeatCollector sampleBeat none)
          (sampleStats []))).1.length = 10 :=
  ⟨(collect_empty_files .perLoop sampleBeat none (sampleStats []) (by decide) rfl).1,
   (collect_empty_files .perLoop sampleBeat none (sampleStats []) (by decide) rfl).2.2.1⟩

/-- C4: the code at the failing input. `Describe` sends the descriptors of the fixed
catalog and nothing else, whatever snapshot is attached: ten descriptors, none with a
`path` label. On the snapshot holding one file record (`a.log`) `Collect` sends fifteen
observations without a fault, under either loop-variable semantics, and the descriptors
of five of them (those labelled `path=a.log`) are not among the descriptors `Describe`
sends. -/
theorem describe_omits_perFile (sem : LoopVar) (beatInfo : BeatInfo) (stats0 : Option Stats)
    (s : Stats) :
    Describe (atSnapshot (NewFilebeatCollector beatInfo stats0) s)
        = (fixedMetrics beatInfo.Beat).map (fun m => m.desc)
    ∧ (Describe (atSnapshot (NewFilebeatCollector beatInfo stats0) s)).length = 10
    ∧ (Describe (atSnapshot (NewFilebeatCollector beatInfo stats0) s)).filter
          (fun d => d.constLabels.any (fun l => l.1 == "path")) = []
    ∧ (Collect sem (NewFilebeatCollector sampleBeat
          (some (sampleStats [("key1", sampleFile "a.log" 100 (some sampleTime))])))).2 = none
    ∧ (Collect sem (NewFilebeatCollector sampleBeat
          (some (sampleStats [("key1", sampleFile "a.log" 100 (some sampleTime))])))).1.length
        = 15
    ∧ (((Collect sem (NewFilebeatCollector sampleBeat
          (some (sampleStats [("key1", sampleFile "a.log" 100 (some sampleTime))])))).1.map
          (fun o => o.desc)).filter
          (fun d => decide (d ∉ Describe (NewFilebeatCollector sampleBeat
            (some (sampleStats [("key1", sampleFile "a.log" 100 (some sampleTime))])))))).map
          (fun d => (d.fqName, d.constLabels))
        = [("filebeat_harvester_size_bytes", [("path", "a.log")]),
           ("filebeat_harvester_last_event_published_time", [("path", "a.log")]),
           ("filebeat_harvester_last_event_timestamp", [("path", "a.log")]),
           ("filebeat_harvester_start_time", [("path", "a.log")]),
           ("filebeat_harvester_file_read_offset", [("path", "a.log")])] := by
  refine ⟨rfl, rfl, ?_, ?_, ?_, ?_⟩
  · simp [Describe, atSnapshot, NewFilebeatCollector, fixedMetrics, NewDesc]
  · cases sem <;> decide
  · cases sem <;> decide
  · cases sem <;> decide

/-! ## The timestamp evaluators (C5, C10) -/

/-- C5: the code at the failing input. A member `last_event_published_time` (or
`last_event_timestamp`) that is missing from the document, or is the literal `null`,
leaves the `*FilebeatTime` pointer nil, and the evaluator faults on it: it reads
`info.LastEventPublishedTime.Time` through the nil pointer. Only an empty string (a
pointer to a `FilebeatTime` whose `Time` is nil) gives the value 0, and a present
timestamp gives its Unix seconds. The pass over a snapshot whose single record lacks the
member sends the size observation and then faults. -/
theorem evalLastEventTime_nil_pointer (sem : LoopVar)
    (parse : List Char → Except ParseError Time) (info : HarvesterFile) (stats : Option Stats)
    (t : Time) :
    decodeFilebeatTimeField parse none = .ok none
    ∧ decodeFilebeatTimeField parse (some "null".toList) = .ok none
    ∧ decodeFilebeatTimeField parse (some [quote, quote]) = .ok (some { Time := none })
    ∧ evalLastEventPublishedTime { info with LastEventPublishedTime := none } stats
        = .error .nilDeref
    ∧ evalLastEventTimestamp { info with LastEventTimestamp := none } stats
        = .error .nilDeref
    ∧ evalLastEventPublishedTime { info with LastEventPublishedTime := some { Time := none } }
        stats = .ok 0
    ∧ evalLastEventTimestamp { info with LastEventTimestamp := some { Time := none } } stats
        = .ok 0
    ∧ evalLastEventPublishedTime { info with LastEventPublishedTime := some { Time := some t } }
        stats = .ok (float64OfInt64 t.sec)
    ∧ evalLastEventTimestamp { info with LastEventTimestamp := some { Time := some t } } stats
        = .ok (float64OfInt64 t.sec)
    ∧ (Collect sem (NewFilebeatCollector sampleBeat (some (sampleStats
          [("key1", { sampleFile "a.log" 100 (some sampleTime) with
                      LastEventPublishedTime := none })])))).1.map ConstMetric.summary
        = [("filebeat_harvester_size_bytes", [("path", "a.log")], 100)]
    ∧ (Collect sem (NewFilebeatCollector sampleBeat (some (sampleStats
          [("key1", { sampleFile "a.log" 100 (some sampleTime) with
                      LastEventPublishedTime := none })])))).2 = some .nilDeref := by
  refine ⟨rfl, rfl, ?_, rfl, rfl, rfl, rfl, rfl, rfl, ?_, ?_⟩
  · have h : trimQuotes [quote, quote] = [] := by decide
    have h2 : [quote, quote] ≠ "null".toList := by decide
    simp [decodeFilebeatTimeField, FilebeatTime.UnmarshalJSON, h, h2]
  · cases sem <;> decide
  · cases sem <;> decide

/-- C10: the code at the failing inputs, with the loop variable shared by all iterations
(`perLoop`, Go before 1.22). When `a.log` (absent `start_time`) is visited before `b.log`
(present `start_time`), no evaluator faults: the ten per-file observations are sent and
the `start_time` observation labelled `a.log` has the Unix seconds of the start time of
`b.log`. When `a.log` has a start time and `b.log`, visited last, has none, evaluating the
`start_time` descriptor of `a.log` faults. With a variable per iteration
(`perIteration`) the first pass faults at the `start_time` descriptor of `a.log`. -/
theorem collect_perLoop_start_time :
    (Collect .perLoop (NewFilebeatCollector sampleBeat
        (some (sampleStats [("key1", sampleFile "a.log" 100 none),
                            ("key2", sampleFile "b.log" 555 (some sampleTime))])))).2 = none
    ∧ (((Collect .perLoop (NewFilebeatCollector sampleBeat
        (some (sampleStats [("key1", sampleFile "a.log" 100 none),
                            ("key2", sampleFile "b.log" 555 (some sampleTime))])))).1.filter
        (fun o => o.desc.help == "filebeat.harvester.file.start_time")).map
          ConstMetric.summary)
      = [("filebeat_harvester_start_time", [("path", "a.log")], 1672531200),
         ("filebeat_harvester_start_time", [("path", "b.log")], 1672531200)]
    ∧ (Collect .perLoop (NewFilebeatCollector sampleBeat
        (some (sampleStats [("key1", sampleFile "a.log" 100 (some sampleTime)),
                            ("key2", sampleFile "b.log" 555 none)])))).2 = some .nilDeref
    ∧ ((Collect .perLoop (NewFilebeatCollector sampleBeat
        (some (sampleStats [("key1", sampleFile "a.log" 100 (some sampleTime)),
                            ("key2", sampleFile "b.log" 555 none)])))).1.map
          ConstMetric.summary)
      = [("filebeat_harvester_size_bytes", [("path", "a.log")], 555),
         ("filebeat_harvester_last_event_published_time", [("path", "a.log")], 0),
         ("filebeat_harvester_last_event_timestamp", [("path", "a.log")], 1672531200)]
    ∧ (Collect .perIteration (NewFilebeatCollector sampleBeat
        (some (sampleStats [("key1", sampleFile "a.log" 100 none),
                            ("key2", sampleFile "b.log" 555 (some sampleTime))])))).2
      = some .nilDeref
    ∧ ((Collect .perIteration (NewFilebeatCollector sampleBeat
        (some (sampleStats [("key1", sampleFile "a.log" 100 none),
                            ("key2", sampleFile "b.log" 555 (some sampleTime))])))).1.map
          ConstMetric.summary)
      = [("filebeat_harvester_size_bytes", [("path", "a.log")], 100),
         ("filebeat_harvester_last_event_published_time", [("path", "a.log")], 0),
         ("filebeat_harvester_last_event_timestamp", [("path", "a.log")], 1672531200)] := by
  refine ⟨?_, ?_, ?_, ?_, ?_, ?_⟩ <;> decide

theorem collect_sent_of_no_fault (sem : LoopVar) (c : filebeatCollector) (s : Stats)
    (hs : c.stats = some s) (hnone : (Collect sem c).2 = none) :
    (Collect sem c).1
        = (sendAll ((firstSeen s.Filebeat.Harvester.Files []).flatMap (fun info =>
            fileInfoMetrics c.beatInfo.Beat info
              (capturedInfo sem s.Filebeat.Harvester.Files info))) (some s)).1
          ++ (sendAll c.metrics (some s)).1
    ∧ (sendAll ((firstSeen s.Filebeat.Harvester.Files []).flatMap (fun info =>
          fileInfoMetrics c.beatInfo.Beat info
            (capturedInfo sem s.Filebeat.Harvester.Files info))) (some s)).2 = none
    ∧ (sendAll c.metrics (some s)).2 = none := by
  rw [collect_eq_sendAll sem c s hs, sendAll_append] at hnone ⊢
  cases hf : (sendAll ((firstSeen s.Filebeat.Harvester.Files []).flatMap (fun info =>
      fileInfoMetrics c.beatInfo.Beat info
        (capturedInfo sem s.Filebeat.Harvester.Files info))) (some s)).2 with
  | some e => rw [hf] at hnone; simp at hnone
  | none =>
    rw [hf] at hnone
    exact ⟨rfl, rfl, hnone⟩

/-- C9: for every `BeatInfo`, every snapshot `s` attached at collection time (whatever
`stats0` the collector was built with) and either loop-variable semantics: every
observation `Collect` sends with a label set of the fixed catalog has as value the
corresponding field of `s`, verbatim; and when the pass ends without a fault the ten
fixed-catalog observations are the last ten sent, untyped, in catalog order, with exactly
these values. -/
theorem collect_fixed_values (sem : LoopVar) (beatInfo : BeatInfo) (stats0 : Option Stats)
    (s : Stats) :
    (∀ o ∈ (Collect sem (atSnapshot (NewFilebeatCollector beatInfo stats0) s)).1,
        (o.desc.constLabels = [("event", "active")] → o.value = s.Filebeat.Events.Active)
      ∧ (o.desc.constLabels = [("event", "added")] → o.value = s.Filebeat.Events.Added)
      ∧ (o.desc.constLabels = [("event", "done")] → o.value = s.Filebeat.Events.Done)
      ∧ (o.desc.constLabels = [("harvester", "closed")]
          → o.value = s.Filebeat.Harvester.Closed)
      ∧ (o.desc.constLabels = [("harvester", "open_files")]
          → o.value = s.Filebeat.Harvester.OpenFiles)
      ∧ (o.desc.constLabels = [("harvester", "running")]
          → o.value = s.Filebeat.Harvester.Running)
      ∧ (o.desc.constLabels = [("harvester", "skipped")]
          → o.value = s.Filebeat.Harvester.Skipped)
      ∧ (o.desc.constLabels = [("harvester", "started")]
          → o.value = s.Filebeat.Harvester.Started)
      ∧ (o.desc.constLabels = [("files", "renamed")]
          → o.value = s.Filebeat.Input.Log.Files.Renamed)
      ∧ (o.desc.constLabels = [("files", "truncated")]
          → o.value = s.Filebeat.Input.Log.Files.Truncated))
    ∧ ((Collect sem (atSnapshot (NewFilebeatCollector beatInfo stats0) s)).2 = none →
        ∃ pre fixed, (Collect sem (atSnapshot (NewFilebeatCollector beatInfo stats0) s)).1
            = pre ++ fixed
          ∧ fixed.map (fun o => (o.desc.constLabels, o.valType, o.value))
            = [([("event", "active")], .UntypedValue, s.Filebeat.Events.Active),
               ([("event", "added")], .UntypedValue, s.Filebeat.Events.Added),
               ([("event", "done")], .UntypedValue, s.Filebeat.Events.Done),
               ([("harvester", "closed")], .UntypedValue, s.Filebeat.Harvester.Closed),
               ([("harvester", "open_files")], .UntypedValue, s.Filebeat.Harvester.OpenFiles),
               ([("harvester", "running")], .UntypedValue, s.Filebeat.Harvester.Running),
               ([("harvester", "skipped")], .UntypedValue, s.Filebeat.Harvester.Skipped),
               ([("harvester", "started")], .UntypedValue, s.Filebeat.Harvester.Started),
               ([("files", "renamed")], .UntypedValue, s.Filebeat.Input.Log.Files.Renamed),
               ([("files", "truncated")], .UntypedValue,
                  s.Filebeat.Input.Log.Files.Truncated)]) := by
  constructor
  · intro o ho
    obtain ⟨m, hm, hev, hd, -⟩ := collect_mem sem _ s rfl ho
    rcases hm with h | h
    · obtain ⟨info, -, hmi⟩ := List.mem_flatMap.1 h
      have hl : o.desc.constLabels = [("path", info.Name)] := by
        rw [hd]; exact mem_fileInfoMetrics_labels hmi
      simp [hl]
    · simp only [atSnapshot, NewFilebeatCollector, fixedMetrics, List.mem_cons,
        List.mem_singleton, List.not_mem_nil, or_false] at h
      rcases h with h | h | h | h | h | h | h | h | h | h <;> subst h <;>
        simp only [evalField, Except.ok.injEq] at hev <;>
        simp [hd, NewDesc, ← hev]
  · intro hnone
    obtain ⟨h1, -, h3⟩ := collect_sent_of_no_fault sem _ s rfl hnone
    refine ⟨_, _, h1, ?_⟩
    rw [sendAll_eq_map h3]
    rfl

/-- Witness of C9: on the snapshot with `events.active = 42` the observation labelled
`event=active` is sent and its value is 42. -/
theorem collect_fixed_values_witness :
    (⟨⟨"filebeat_filebeat_events", "filebeat.events", [("event", "active")]⟩,
        .UntypedValue, 42⟩ : ConstMetric)
      ∈ (Collect .perLoop (atSnapshot (NewFilebeatCollector sampleBeat (some zeroStats))
          (sampleStats []))).1
    ∧ (42 : Float64) = (sampleStats []).Filebeat.Events.Active :=
  ⟨by decide,
   ((collect_fixed_values .perLoop sampleBeat (some zeroStats) (sampleStats [])).1
      ⟨⟨"filebeat_filebeat_events", "filebeat.events", [("event", "active")]⟩,
        .UntypedValue, 42⟩ (by decide)).1 rfl⟩

/-! ## `FilebeatTime.UnmarshalJSON` (C6, C7, C8, C18) -/

/-- C6: for every RFC 3339 parser `parse` and every prior receiver `f`,
`UnmarshalJSON` applied to the JSON empty string (two double quotes) returns no error and
leaves `Time` nil (absent, not a pointer to the zero time); applied to any `b` whose
stripped text is non-empty and is parsed to the instant `t`, it returns no error and
leaves `Time` pointing at exactly `t`. -/
theorem unmarshalJSON_empty_and_valid (parse : List Char → Except ParseError Time)
    (f : FilebeatTime) :
    FilebeatTime.UnmarshalJSON parse f [quote, quote] = ({ Time := none }, none)
    ∧ ({ Time := none } : FilebeatTime) ≠ { Time := some Time.zero }
    ∧ (∀ (b : List Char) (t : Time), trimQuotes b ≠ [] → parse (trimQuotes b) = .ok t →
        FilebeatTime.UnmarshalJSON parse f b = ({ Time := some t }, none)) := by
  refine ⟨?_, by decide, ?_⟩
  · have h : trimQuotes [quote, quote] = [] := by decide
    simp [FilebeatTime.UnmarshalJSON, h]
  · intro b t hne hp
    simp [FilebeatTime.UnmarshalJSON, hne, hp]

/-- Witness of C6: with the RFC 3339 parser model, the empty string clears a receiver
that held the zero time, and the quoted text 2023-01-01T00:00:00Z yields the instant
1672531200 s after the Unix epoch, offset 0. -/
theorem unmarshalJSON_empty_and_valid_witness :
    FilebeatTime.UnmarshalJSON parseRFC3339 { Time := some Time.zero } [quote, quote]
        = ({ Time := none }, none)
    ∧ FilebeatTime.UnmarshalJSON parseRFC3339 { Time := none }
        (quote :: "2023-01-01T00:00:00Z".toList ++ [quote])
        = ({ Time := some { sec := 1672531200, nsec := 0, offset := 0 } }, none) :=
  ⟨(unmarshalJSON_empty_and_valid parseRFC3339 { Time := some Time.zero }).1,
   (unmarshalJSON_empty_and_valid parseRFC3339 { Time := none }).2.2
      (quote :: "2023-01-01T00:00:00Z".toList ++ [quote])
      { sec := 1672531200, nsec := 0, offset := 0 } (by decide) (by rfl)⟩

/-- C7: the code at the failing input. `UnmarshalJSON` applied to the four bytes `null`
strips no quote, finds a non-empty text that is not an RFC 3339 timestamp, and returns the
parser's error with `Time` pointing at the zero time: it does not succeed and does not
leave the value absent. -/
theorem unmarshalJSON_null (f : FilebeatTime) :
    trimQuotes "null".toList = "null".toList
    ∧ FilebeatTime.UnmarshalJSON parseRFC3339 f "null".toList
        = ({ Time := some Time.zero }, some { value := "null".toList })
    ∧ FilebeatTime.UnmarshalJSON parseRFC3339 f "null".toList
        ≠ FilebeatTime.UnmarshalJSON parseRFC3339 f [quote, quote] := by
  refine ⟨by decide, rfl, ?_⟩
  have h1 : FilebeatTime.UnmarshalJSON parseRFC3339 f "null".toList
      = ({ Time := some Time.zero }, some { value := "null".toList }) := rfl
  have h2 : FilebeatTime.UnmarshalJSON parseRFC3339 f [quote, quote]
      = ({ Time := none }, none) := rfl
  rw [h1, h2]
  decide

theorem getnum_of_twoDigits (s : List Char) (fixed : Bool) (r : Nat × List Char)
    (h : twoDigits s = some r) : getnum s fixed = some r := by
  match s with
  | [] => simp [twoDigits] at h
  | [a] => simp [twoDigits] at h
  | a :: b :: rest =>
    simp only [twoDigits] at h
    cases ha : digitVal a with
    | none => simp [ha] at h
    | some x =>
      cases hb : digitVal b with
      | none => simp [ha, hb] at h
      | some y =>
        simp only [ha, hb, Option.some.injEq] at h
        simp [getnum, ha, hb, h]

theorem zone_of_strictZone (s : List Char) (h : strictZone s = true) :
    ∃ off, zone s = some off := by
  match s with
  | [] => simp [strictZone] at h
  | c :: rest =>
    unfold strictZone at h
    unfold zone
    by_cases hc : c = 'Z'
    · simp only [hc, if_true, decide_eq_true_eq] at h ⊢
      exact ⟨0, by simp [h]⟩
    · simp only [hc, if_false] at h ⊢
      cases h1 : twoDigits rest with
      | none => simp [h1] at h
      | some r1 =>
        obtain ⟨hh, rest1⟩ := r1
        simp only [h1] at h ⊢
        cases h2 : expect ':' rest1 with
        | none => simp [h2] at h
        | some rest2 =>
          simp only [h2] at h ⊢
          cases h3 : twoDigits rest2 with
          | none => simp [h3] at h
          | some r3 =>
            obtain ⟨mm, rest3⟩ := r3
            simp only [h3, decide_eq_true_eq] at h ⊢
            have h' : (c = '+' ∨ c = '-') ∧ hh ≤ 24 ∧ mm ≤ 60 ∧ rest3 = [] :=
              ⟨h.1, by omega, by omega, h.2.2.2⟩
            exact ⟨_, by rw [if_pos h']⟩

theorem strictZone_first (c : Char) (rest : List Char) (h : strictZone (c :: rest) = true) :
    c = 'Z' ∨ c = '+' ∨ c = '-' := by
  unfold strictZone at h
  by_cases hc : c = 'Z'
  · exact Or.inl hc
  · simp only [hc, if_false] at h
    cases h1 : twoDigits rest with
    | none => simp [h1] at h
    | some r1 =>
      obtain ⟨hh, rest1⟩ := r1
      simp only [h1] at h
      cases h2 : expect ':' rest1 with
      | none => simp [h2] at h
      | some rest2 =>
        simp only [h2] at h
        cases h3 : twoDigits rest2 with
        | none => simp [h3] at h
        | some r3 =>
          obtain ⟨mm, rest3⟩ := r3
          simp only [h3, decide_eq_true_eq] at h
          exact Or.inr h.1

theorem zone_fraction_of_strict (s s3 : List Char) (h : strictFraction s = some s3)
    (hz : strictZone s3 = true) : ∃ off, zone (fraction s).2 = some off := by
  match s with
  | [] =>
    simp only [strictFraction, Option.some.injEq] at h
    subst h
    simp [strictZone] at hz
  | c :: rest =>
    unfold strictFraction at h
    by_cases hc : c = '.'
    · simp only [hc, if_true] at h
      match rest with
      | [] => simp at h
      | dd :: rest' =>
        simp only at h
        cases hd : (digitVal dd).isSome with
        | false => simp [hd] at h
        | true =>
          simp only [hd, if_true, Option.some.injEq] at h
          have hf : fraction (c :: dd :: rest') = fracDigits (dd :: rest') 100000000 0 := by
            simp [fraction, hc, hd]
          rw [hf, h]
          exact zone_of_strictZone _ hz
    · simp only [hc, if_false, Option.some.injEq] at h
      subst h
      have hcomma : c ≠ ',' := by
        rcases strictZone_first c rest hz with h | h | h <;> rw [h] <;> decide
      have hf : fraction (c :: rest) = (0, c :: rest) := by
        unfold fraction
        match rest with
        | [] => rfl
        | dd :: rest' => simp [hc, hcomma]
      rw [hf]
      exact zone_of_strictZone _ hz

/-- Every valid RFC 3339 timestamp (`validRFC3339`) is accepted by the model of
`time.Parse`. -/
theorem parseRFC3339_of_valid (s : List Char) (h : validRFC3339 s = true) :
    ∃ t, parseRFC3339 s = .ok t := by
  unfold validRFC3339 at h
  unfold parseRFC3339 parseFields
  cases h1 : parseDate s with
  | none => simp [h1] at h
  | some r1 =>
    obtain ⟨⟨y, mo, dd⟩, s1⟩ := r1
    simp only [h1] at h
    cases h2 : strictClock s1 with
    | none => simp [h2] at h
    | some r2 =>
      obtain ⟨⟨hh, mi, sc⟩, s2⟩ := r2
      simp only [h2] at h
      cases h3 : strictFraction s2 with
      | none => simp [h3] at h
      | some s3 =>
        simp only [h3, Bool.and_eq_true] at h
        obtain ⟨off, hoff⟩ := zone_fraction_of_strict s2 s3 h3 h.1
        have hclock : parseClock s1 = some ((hh, mi, sc), s2) := by
          unfold strictClock at h2
          unfold parseClock
          cases h4 : twoDigits s1 with
          | none => simp [h4] at h2
          | some r4 =>
            rw [getnum_of_twoDigits s1 false r4 h4]
            rw [h4] at h2
            exact h2
        simp [hclock, hoff, h.2]

/-- C8, as stated, fails: the stripped texts `2023-01-01T1:00:00Z` (an hour of one digit)
and `2023-01-01T00:00:00+24:00` (an offset of 24 hours) are not empty and are not valid
RFC 3339 timestamps, yet `time.Parse(time.RFC3339, ·)` accepts them and `UnmarshalJSON`
returns no error, leaving the value present. -/
theorem unmarshalJSON_lenient_counterexample :
    trimQuotes (quote :: "2023-01-01T1:00:00Z".toList ++ [quote])
        = "2023-01-01T1:00:00Z".toList
    ∧ validRFC3339 "2023-01-01T1:00:00Z".toList = false
    ∧ FilebeatTime.UnmarshalJSON parseRFC3339 { Time := none }
        (quote :: "2023-01-01T1:00:00Z".toList ++ [quote])
        = ({ Time := some { sec := 1672534800, nsec := 0, offset := 0 } }, none)
    ∧ validRFC3339 "2023-01-01T00:00:00+24:00".toList = false
    ∧ FilebeatTime.UnmarshalJSON parseRFC3339 { Time := none }
        (quote :: "2023-01-01T00:00:00+24:00".toList ++ [quote])
        = ({ Time := some { sec := 1672444800, nsec := 0, offset := 86400 } }, none) := by
  refine ⟨?_, ?_, ?_, ?_, ?_⟩ <;> decide

/-- C8 (amended): for every receiver `f`, every input `b` and every error `e`,
`UnmarshalJSON` returns the error `e` if and only if `b` stripped of its leading and
trailing double quotes is non-empty and `time.Parse(time.RFC3339, ·)` rejects it with the
error `e` (the parser's error is returned, not swallowed); an error is returned only for a
stripped text that is not a valid RFC 3339 timestamp in the sense of `validRFC3339`
(upper-case `T` and `Z`, no leap second), and never for a valid one. -/
theorem unmarshalJSON_error_iff (f : FilebeatTime) (b : List Char) (e : ParseError) :
    ((FilebeatTime.UnmarshalJSON parseRFC3339 f b).2 = some e
      ↔ trimQuotes b ≠ [] ∧ parseRFC3339 (trimQuotes b) = .error e)
    ∧ ((FilebeatTime.UnmarshalJSON parseRFC3339 f b).2 = some e →
        trimQuotes b ≠ [] ∧ validRFC3339 (trimQuotes b) = false)
    ∧ (validRFC3339 (trimQuotes b) = true →
        (FilebeatTime.UnmarshalJSON parseRFC3339 f b).2 = none) := by
  have hiff : (FilebeatTime.UnmarshalJSON parseRFC3339 f b).2 = some e
      ↔ trimQuotes b ≠ [] ∧ parseRFC3339 (trimQuotes b) = .error e := by
    unfold FilebeatTime.UnmarshalJSON
    by_cases h : trimQuotes b = []
    · simp [h]
    · cases hp : parseRFC3339 (trimQuotes b) with
      | ok t => simp [h, hp]
      | error err => simp [h, hp]
  refine ⟨hiff, ?_, ?_⟩
  · intro herr
    obtain ⟨hne, hp⟩ := hiff.1 herr
    refine ⟨hne, ?_⟩
    cases hv : validRFC3339 (trimQuotes b) with
    | false => rfl
    | true =>
      obtain ⟨t, ht⟩ := parseRFC3339_of_valid _ hv
      rw [ht] at hp
      cases hp
  · intro hv
    obtain ⟨t, ht⟩ := parseRFC3339_of_valid _ hv
    unfold FilebeatTime.UnmarshalJSON
    by_cases h : trimQuotes b = []
    · simp [h]
    · simp [h, ht]

/-- Witness of C8 (amended): the quoted text `2023-01-01T00:00:00` has no zone: it is not
empty, the parser rejects it, and `UnmarshalJSON` returns the parser's error; it is not a
valid RFC 3339 timestamp. -/
theorem unmarshalJSON_error_iff_witness :
    (FilebeatTime.UnmarshalJSON parseRFC3339 { Time := none }
        (quote :: "2023-01-01T00:00:00".toList ++ [quote])).2
      = some { value := "2023-01-01T00:00:00".toList }
    ∧ validRFC3339 (trimQuotes (quote :: "2023-01-01T00:00:00".toList ++ [quote])) = false :=
  ⟨((unmarshalJSON_error_iff { Time := none }
        (quote :: "2023-01-01T00:00:00".toList ++ [quote])
        { value := "2023-01-01T00:00:00".toList }).1).2 ⟨by decide, by rfl⟩,
   ((unmarshalJSON_error_iff { Time := none }
        (quote :: "2023-01-01T00:00:00".toList ++ [quote])
        { value := "2023-01-01T00:00:00".toList }).2.1
      (((unmarshalJSON_error_iff { Time := none }
        (quote :: "2023-01-01T00:00:00".toList ++ [quote])
        { value := "2023-01-01T00:00:00".toList }).1).2 ⟨by decide, by rfl⟩)).2⟩

/-- C18: for every RFC 3339 parser `parse`, every prior receiver `f` and every input `b`:
whenever `UnmarshalJSON` returns an error the receiver has been overwritten, its `Time`
pointing at the zero instant whatever `f` held; and the receiver is absent (`Time` nil)
after the call if and only if `b` stripped of its double quotes is empty. -/
theorem unmarshalJSON_error_overwrites (parse : List Char → Except ParseError Time)
    (f : FilebeatTime) (b : List Char) :
    (∀ e, (FilebeatTime.UnmarshalJSON parse f b).2 = some e →
        (FilebeatTime.UnmarshalJSON parse f b).1 = { Time := some Time.zero })
    ∧ ((FilebeatTime.UnmarshalJSON parse f b).1.Time = none ↔ trimQuotes b = []) := by
  unfold FilebeatTime.UnmarshalJSON
  by_cases h : trimQuotes b = []
  · simp [h]
  · cases hp : parse (trimQuotes b) with
    | ok t => simp [h, hp]
    | error err => simp [h, hp]

/-- Witness of C18: the input `null` on a receiver that held 2023-01-01T00:00:00Z returns
an error and leaves the receiver pointing at the zero instant, and the stripped input is
not empty. -/
theorem unmarshalJSON_error_overwrites_witness :
    (FilebeatTime.UnmarshalJSON parseRFC3339 { Time := some sampleTime } "null".toList).1
        = { Time := some Time.zero }
    ∧ trimQuotes "null".toList ≠ [] :=
  ⟨(unmarshalJSON_error_overwrites parseRFC3339 { Time := some sampleTime } "null".toList).1
      { value := "null".toList } rfl,
   by decide⟩

/-! ## `Describe` with no snapshot attached (C13) -/

/-- C13: for every `BeatInfo`, on the collector built by `NewFilebeatCollector` with a nil
`stats` pointer, `Describe` (which reads only `c.metrics` and so has no faulting step)
sends the descriptor of every entry of the fixed catalog, in catalog order: the same ten
descriptors as with any snapshot attached. -/
theorem describe_nil_stats (beatInfo : BeatInfo) :
    (NewFilebeatCollector beatInfo none).stats = none
    ∧ Describe (NewFilebeatCollector beatInfo none)
        = descs (NewFilebeatCollector beatInfo none).metrics
    ∧ (∀ s : Stats, Describe (NewFilebeatCollector beatInfo none)
        = Describe (NewFilebeatCollector beatInfo (some s)))
    ∧ (Describe (NewFilebeatCollector beatInfo none)).map Desc.ident
        = [(BuildFQName beatInfo.Beat "filebeat" "events", [("event", "active")]),
           (BuildFQName beatInfo.Beat "filebeat" "events", [("event", "added")]),
           (BuildFQName beatInfo.Beat "filebeat" "events", [("event", "done")]),
           (BuildFQName beatInfo.Beat "filebeat" "harvester", [("harvester", "closed")]),
           (BuildFQName beatInfo.Beat "filebeat" "harvester", [("harvester", "open_files")]),
           (BuildFQName beatInfo.Beat "filebeat" "harvester", [("harvester", "running")]),
           (BuildFQName beatInfo.Beat "filebeat" "harvester", [("harvester", "skipped")]),
           (BuildFQName beatInfo.Beat "filebeat" "harvester", [("harvester", "started")]),
           (BuildFQName beatInfo.Beat "filebeat" "input_log", [("files", "renamed")]),
           (BuildFQName beatInfo.Beat "filebeat" "input_log", [("files", "truncated")])] :=
  ⟨rfl, rfl, fun _ => rfl, rfl⟩

/-! ## Unix seconds do not depend on the offset (C12) -/

/-- C12: for any two present timestamps `t` and `u` that denote the same instant, whatever
their offsets, the evaluators of `last_event_published_time`, `last_event_timestamp` and
`start_time` return the same value on records holding `t` and `u`. -/
theorem eval_same_instant (t u : Time) (h : Time.Equal t u) (info info2 : HarvesterFile)
    (stats stats2 : Option Stats) :
    evalLastEventPublishedTime { info with LastEventPublishedTime := some { Time := some t } }
        stats
      = evalLastEventPublishedTime
          { info2 with LastEventPublishedTime := some { Time := some u } } stats2
    ∧ evalLastEventTimestamp { info with LastEventTimestamp := some { Time := some t } } stats
      = evalLastEventTimestamp { info2 with LastEventTimestamp := some { Time := some u } }
          stats2
    ∧ evalStartTime { info with StartTime := some t } stats
      = evalStartTime { info2 with StartTime := some u } stats2 := by
  have hs : t.UTC.Unix = u.UTC.Unix := h.1
  simp only [evalLastEventPublishedTime, evalLastEventTimestamp, evalStartTime, hs, and_self]

/-- Witness of C12: the texts 2023-01-01T02:00:00+02:00 and 2023-01-01T00:00:00Z parse to
two times with offsets 7200 and 0 that denote the same instant, and the `start_time`
evaluator returns 1672531200 for both. -/
theorem eval_same_instant_witness :
    parseRFC3339 "2023-01-01T02:00:00+02:00".toList
        = .ok { sec := 1672531200, nsec := 0, offset := 7200 }
    ∧ parseRFC3339 "2023-01-01T00:00:00Z".toList
        = .ok { sec := 1672531200, nsec := 0, offset := 0 }
    ∧ evalStartTime { sampleFile "a.log" 100 none with
          StartTime := some { sec := 1672531200, nsec := 0, offset := 7200 } } none
      = evalStartTime { sampleFile "a.log" 100 none with
          StartTime := some { sec := 1672531200, nsec := 0, offset := 0 } } none
    ∧ evalStartTime { sampleFile "a.log" 100 none with
          StartTime := some { sec := 1672531200, nsec := 0, offset := 0 } } none
      = .ok 1672531200 :=
  ⟨rfl, rfl,
   (eval_same_instant { sec := 1672531200, nsec := 0, offset := 7200 }
      { sec := 1672531200, nsec := 0, offset := 0 } (by decide)
      (sampleFile "a.log" 100 none) (sampleFile "a.log" 100 none) none none).2.2,
   by
    have h : float64OfInt64 1672531200 = 1672531200 := by decide
    simp [evalStartTime, sampleFile, Time.UTC, Time.Unix, h]⟩

/-! ## Fully-qualified names and label keys (C11) -/

/-- C11, as stated, fails for the empty product name: `BuildFQName` drops an empty
component, so the per-file size metric and the first fixed metric are named
`harvester_size_bytes` and `filebeat_events`, without the leading underscore of
product + "_" + subsystem + "_" + field. -/
theorem fqName_counterexample :
    (descs (fileInfoMetrics "" (sampleFile "a.log" 100 none) (sampleFile "a.log" 100 none))).map
        (fun d => d.fqName)
      = ["harvester_size_bytes", "harvester_last_event_published_time",
         "harvester_last_event_timestamp", "harvester_start_time",
         "harvester_file_read_offset"]
    ∧ ((descs (NewFilebeatCollector { sampleBeat with Beat := "" } none).metrics).map
        (fun d => d.fqName)).head? = some "filebeat_events"
    ∧ "harvester_size_bytes" ≠ "" ++ "_" ++ "harvester" ++ "_" ++ "size_bytes"
    ∧ "filebeat_events" ≠ "" ++ "_" ++ "filebeat" ++ "_" ++ "events" := by
  refine ⟨?_, ?_, ?_, ?_⟩ <;> decide

/-- C11 (amended): for every `BeatInfo`, the descriptors built by `NewFilebeatCollector`
and by an iteration of `buildFileInfoMetrics` are named product + "_" + subsystem + "_" +
field when the product name is not empty, and subsystem + "_" + field when it is empty;
the label key is `event` on the three event descriptors, `harvester` on the five
harvester-state descriptors, `files` on the two input-log descriptors and `path` on the
five per-file descriptors. -/
theorem fqName_and_label_keys (beatInfo : BeatInfo) (info captured : HarvesterFile) :
    (beatInfo.Beat ≠ "" →
      (descs (NewFilebeatCollector beatInfo none).metrics).map (fun d => d.fqName)
        = [beatInfo.Beat ++ "_" ++ "filebeat" ++ "_" ++ "events",
           beatInfo.Beat ++ "_" ++ "filebeat" ++ "_" ++ "events",
           beatInfo.Beat ++ "_" ++ "filebeat" ++ "_" ++ "events",
           beatInfo.Beat ++ "_" ++ "filebeat" ++ "_" ++ "harvester",
           beatInfo.Beat ++ "_" ++ "filebeat" ++ "_" ++ "harvester",
           beatInfo.Beat ++ "_" ++ "filebeat" ++ "_" ++ "harvester",
           beatInfo.Beat ++ "_" ++ "filebeat" ++ "_" ++ "harvester",
           beatInfo.Beat ++ "_" ++ "filebeat" ++ "_" ++ "harvester",
           beatInfo.Beat ++ "_" ++ "filebeat" ++ "_" ++ "input_log",
           beatInfo.Beat ++ "_" ++ "filebeat" ++ "_" ++ "input_log"]
      ∧ (descs (fileInfoMetrics beatInfo.Beat info captured)).map (fun d => d.fqName)
        = [beatInfo.Beat ++ "_" ++ "harvester" ++ "_" ++ "size_bytes",
           beatInfo.Beat ++ "_" ++ "harvester" ++ "_" ++ "last_event_published_time",
           beatInfo.Beat ++ "_" ++ "harvester" ++ "_" ++ "last_event_timestamp",
           beatInfo.Beat ++ "_" ++ "harvester" ++ "_" ++ "start_time",
           beatInfo.Beat ++ "_" ++ "harvester" ++ "_" ++ "file_read_offset"])
    ∧ (beatInfo.Beat = "" →
      (descs (NewFilebeatCollector beatInfo none).metrics).map (fun d => d.fqName)
        = ["filebeat" ++ "_" ++ "events", "filebeat" ++ "_" ++ "events",
           "filebeat" ++ "_" ++ "events", "filebeat" ++ "_" ++ "harvester",
           "filebeat" ++ "_" ++ "harvester", "filebeat" ++ "_" ++ "harvester",
           "filebeat" ++ "_" ++ "harvester", "filebeat" ++ "_" ++ "harvester",
           "filebeat" ++ "_" ++ "input_log", "filebeat" ++ "_" ++ "input_log"]
      ∧ (descs (fileInfoMetrics beatInfo.Beat info captured)).map (fun d => d.fqName)
        = ["harvester" ++ "_" ++ "size_bytes",
           "harvester" ++ "_" ++ "last_event_published_time",
           "harvester" ++ "_" ++ "last_event_timestamp",
           "harvester" ++ "_" ++ "start_time",
           "harvester" ++ "_" ++ "file_read_offset"])
    ∧ (descs (NewFilebeatCollector beatInfo none).metrics).map
          (fun d => d.constLabels.map (fun l => l.1))
        = [["event"], ["event"], ["event"], ["harvester"], ["harvester"], ["harvester"],
           ["harvester"], ["harvester"], ["files"], ["files"]]
    ∧ (descs (fileInfoMetrics beatInfo.Beat info captured)).map
          (fun d => d.constLabels.map (fun l => l.1))
        = [["path"], ["path"], ["path"], ["path"], ["path"]] := by
  refine ⟨?_, ?_, rfl, rfl⟩
  · intro h
    simp [descs, NewFilebeatCollector, fixedMetrics, fileInfoMetrics, NewDesc, BuildFQName, h]
  · intro h
    simp [descs, NewFilebeatCollector, fixedMetrics, fileInfoMetrics, NewDesc, BuildFQName, h]

/-- Witness of C11 (amended): for the product `filebeat` the per-file size metric is named
`filebeat_harvester_size_bytes`. -/
theorem fqName_and_label_keys_witness :
    ((descs (fileInfoMetrics sampleBeat.Beat (sampleFile "a.log" 100 none)
        (sampleFile "a.log" 100 none))).map (fun d => d.fqName)).head?
      = some "filebeat_harvester_size_bytes" := by
  have h := ((fqName_and_label_keys sampleBeat (sampleFile "a.log" 100 none)
    (sampleFile "a.log" 100 none)).1 (by decide)).2
  rw [h]
  decide

/-! ## The per-file descriptors (C14) -/

theorem labelledPath_append (n : String) (a b : exportedMetrics) :
    labelledPath n (a ++ b) = labelledPath n a ++ labelledPath n b := by
  simp [labelledPath]

theorem labelledPath_fileInfoMetrics_eq (beat : String) (info cap : HarvesterFile) :
    labelledPath info.Name (fileInfoMetrics beat info cap)
      = [(BuildFQName beat "harvester" "size_bytes", .GaugeValue),
         (BuildFQName beat "harvester" "last_event_published_time", .UntypedValue),
         (BuildFQName beat "harvester" "last_event_timestamp", .UntypedValue),
         (BuildFQName beat "harvester" "start_time", .UntypedValue),
         (BuildFQName beat "harvester" "file_read_offset", .GaugeValue)] := by
  simp [labelledPath, fileInfoMetrics, NewDesc]

theorem labelledPath_fileInfoMetrics_ne (beat : String) (info cap : HarvesterFile)
    (n : String) (h : info.Name ≠ n) : labelledPath n (fileInfoMetrics beat info cap) = [] := by
  simp [labelledPath, fileInfoMetrics, NewDesc, h]

theorem labelledPath_flatMap_of_not_mem (beat : String) (cap : HarvesterFile → HarvesterFile)
    (n : String) (l : List HarvesterFile) (h : n ∉ l.map (fun i => i.Name)) :
    labelledPath n (l.flatMap (fun info => fileInfoMetrics beat info (cap info))) = [] := by
  induction l with
  | nil => rfl
  | cons a l ih =>
    simp only [List.map_cons, List.mem_cons, not_or] at h
    rw [List.flatMap_cons, labelledPath_append,
      labelledPath_fileInfoMetrics_ne beat a (cap a) n (fun e => h.1 e.symm), ih h.2]
    rfl

theorem labelledPath_flatMap (beat : String) (cap : HarvesterFile → HarvesterFile)
    (n : String) (l : List HarvesterFile) (hnd : (l.map (fun i => i.Name)).Nodup)
    (h : n ∈ l.map (fun i => i.Name)) :
    labelledPath n (l.flatMap (fun info => fileInfoMetrics beat info (cap info)))
      = [(BuildFQName beat "harvester" "size_bytes", .GaugeValue),
         (BuildFQName beat "harvester" "last_event_published_time", .UntypedValue),
         (BuildFQName beat "harvester" "last_event_timestamp", .UntypedValue),
         (BuildFQName beat "harvester" "start_time", .UntypedValue),
         (BuildFQName beat "harvester" "file_read_offset", .GaugeValue)] := by
  induction l with
  | nil => simp at h
  | cons a l ih =>
    simp only [List.map_cons, List.nodup_cons] at hnd
    rw [List.flatMap_cons, labelledPath_append]
    by_cases ha : a.Name = n
    · subst ha
      rw [labelledPath_fileInfoMetrics_eq, labelledPath_flatMap_of_not_mem beat cap _ l hnd.1,
        List.append_nil]
    · simp only [List.map_cons, List.mem_cons] at h
      rcases h with h | h
      · exact absurd h.symm ha
      · rw [labelledPath_fileInfoMetrics_ne beat a (cap a) n ha, ih hnd.2 h, List.nil_append]

/-- C14: for every snapshot, every distinct file name `n` of its file mapping and either
loop-variable semantics, `buildFileInfoMetrics` returns entries of which exactly five are
labelled `path=n`, in this order: harvester `size_bytes` (gauge),
`last_event_published_time` (untyped), `last_event_timestamp` (untyped), `start_time`
(untyped), `file_read_offset` (gauge); and every entry it returns is labelled with the
name of some record of the mapping. -/
theorem buildFileInfoMetrics_descriptors (sem : LoopVar) (beatInfo : BeatInfo)
    (stats0 : Option Stats) (s : Stats) (n : String)
    (hn : n ∈ s.Filebeat.Harvester.Files.map (fun e => e.2.Name)) :
    ∃ dyn, buildFileInfoMetrics sem (atSnapshot (NewFilebeatCollector beatInfo stats0) s)
        = .ok dyn
      ∧ labelledPath n dyn
        = [(BuildFQName beatInfo.Beat "harvester" "size_bytes", .GaugeValue),
           (BuildFQName beatInfo.Beat "harvester" "last_event_published_time", .UntypedValue),
           (BuildFQName beatInfo.Beat "harvester" "last_event_timestamp", .UntypedValue),
           (BuildFQName beatInfo.Beat "harvester" "start_time", .UntypedValue),
           (BuildFQName beatInfo.Beat "harvester" "file_read_offset", .GaugeValue)]
      ∧ (∀ m ∈ dyn, ∃ e ∈ s.Filebeat.Harvester.Files,
          m.desc.constLabels = [("path", e.2.Name)]) := by
  refine ⟨_, buildFileInfoMetrics_eq sem _ s rfl, ?_, ?_⟩
  · exact labelledPath_flatMap _ _ n _ (nodup_firstSeen_name _ [])
      ((mem_firstSeen_name _ [] n).2 ⟨hn, by simp⟩)
  · intro m hm
    obtain ⟨info, hinfo, hmi⟩ := List.mem_flatMap.1 hm
    obtain ⟨e, he, hee⟩ := List.mem_map.1 (firstSeen_subset _ _ _ hinfo)
    exact ⟨e, he, by rw [hee]; exact mem_fileInfoMetrics_labels hmi⟩

/-- Witness of C14: in the mapping with `a.log` twice and `b.log` once, the name `a.log`
has its five descriptors of the product `filebeat`, in order. -/
theorem buildFileInfoMetrics_descriptors_witness :
    ∃ dyn, buildFileInfoMetrics .perLoop (atSnapshot (NewFilebeatCollector sampleBeat none)
        (sampleStats [("key1", sampleFile "a.log" 100 (some sampleTime)),
                      ("key2", sampleFile "a.log" 999 (some sampleTime)),
                      ("key3", sampleFile "b.log" 555 (some sampleTime))])) = .ok dyn
      ∧ labelledPath "a.log" dyn
        = [("filebeat_harvester_size_bytes", .GaugeValue),
           ("filebeat_harvester_last_event_published_time", .UntypedValue),
           ("filebeat_harvester_last_event_timestamp", .UntypedValue),
           ("filebeat_harvester_start_time", .UntypedValue),
           ("filebeat_harvester_file_read_offset", .GaugeValue)] := by
  obtain ⟨dyn, h1, h2, -⟩ := buildFileInfoMetrics_descriptors .perLoop sampleBeat none
    (sampleStats [("key1", sampleFile "a.log" 100 (some sampleTime)),
                  ("key2", sampleFile "a.log" 999 (some sampleTime)),
                  ("key3", sampleFile "b.log" 555 (some sampleTime))]) "a.log" (by decide)
  refine ⟨dyn, h1, ?_⟩
  rw [h2]
  decide

/-! ## Order of the pass and faults (C15, C16) -/

/-- C15, as stated, fails: on the snapshot whose single file record has an absent
`start_time`, `Collect` faults (under either loop-variable semantics) after it has sent
three observations on the channel: the size, `last_event_published_time` and
`last_event_timestamp` observations of that file. -/
theorem collect_fault_counterexample :
    (Collect .perLoop (NewFilebeatCollector sampleBeat
        (some (sampleStats [("key1", sampleFile "a.log" 100 none)])))).2 = some .nilDeref
    ∧ (Collect .perIteration (NewFilebeatCollector sampleBeat
        (some (sampleStats [("key1", sampleFile "a.log" 100 none)])))).2 = some .nilDeref
    ∧ (Collect .perLoop (NewFilebeatCollector sampleBeat
        (some (sampleStats [("key1", sampleFile "a.log" 100 none)])))).1.map
          ConstMetric.summary
      = [("filebeat_harvester_size_bytes", [("path", "a.log")], 100),
         ("filebeat_harvester_last_event_published_time", [("path", "a.log")], 0),
         ("filebeat_harvester_last_event_timestamp", [("path", "a.log")], 1672531200)]
    ∧ (Collect .perIteration (NewFilebeatCollector sampleBeat
        (some (sampleStats [("key1", sampleFile "a.log" 100 none)])))).1.map
          ConstMetric.summary
      = [("filebeat_harvester_size_bytes", [("path", "a.log")], 100),
         ("filebeat_harvester_last_event_published_time", [("path", "a.log")], 0),
         ("filebeat_harvester_last_event_timestamp", [("path", "a.log")], 1672531200)]
    ∧ ¬ (Collect .perLoop (NewFilebeatCollector sampleBeat
        (some (sampleStats [("key1", sampleFile "a.log" 100 none)])))).1 = [] := by
  refine ⟨?_, ?_, ?_, ?_, ?_⟩ <;> decide

/-- The pass that faults, with a snapshot attached: the entries split at the faulting
one, which is a per-file entry or, when there is no per-file entry before it, the first
entry of the fixed catalog; the values sent are those of the entries before it, and they
are exactly what the loop over the per-file entries sends. -/
theorem collect_fault_split (sem : LoopVar) (beatInfo : BeatInfo) (stats0 : Option Stats)
    (s : Stats) (e : Fault)
    (hfault : (Collect sem (atSnapshot (NewFilebeatCollector beatInfo stats0) s)).2 = some e) :
    ∃ pre m post,
      (firstSeen s.Filebeat.Harvester.Files []).flatMap (fun info =>
          fileInfoMetrics beatInfo.Beat info
            (capturedInfo sem s.Filebeat.Harvester.Files info))
        ++ fixedMetrics beatInfo.Beat = pre ++ m :: post
      ∧ pre <+: (firstSeen s.Filebeat.Harvester.Files []).flatMap (fun info =>
          fileInfoMetrics beatInfo.Beat info
            (capturedInfo sem s.Filebeat.Harvester.Files info))
      ∧ List.Forall₂ (fun o m => newMetric m (some s) = .ok o)
          (Collect sem (atSnapshot (NewFilebeatCollector beatInfo stats0) s)).1 pre
      ∧ newMetric m (some s) = .error e
      ∧ (Collect sem (atSnapshot (NewFilebeatCollector beatInfo stats0) s)).1
          = (sendAll ((firstSeen s.Filebeat.Harvester.Files []).flatMap (fun info =>
              fileInfoMetrics beatInfo.Beat info
                (capturedInfo sem s.Filebeat.Harvester.Files info))) (some s)).1 := by
  have hc : Collect sem (atSnapshot (NewFilebeatCollector beatInfo stats0) s)
      = sendAll ((firstSeen s.Filebeat.Harvester.Files []).flatMap (fun info =>
            fileInfoMetrics beatInfo.Beat info
              (capturedInfo sem s.Filebeat.Harvester.Files info))
          ++ fixedMetrics beatInfo.Beat) (some s) :=
    collect_eq_sendAll sem _ s rfl
  rw [hc, sendAll_append] at hfault ⊢
  cases hf : (sendAll ((firstSeen s.Filebeat.Harvester.Files []).flatMap (fun info =>
      fileInfoMetrics beatInfo.Beat info
        (capturedInfo sem s.Filebeat.Harvester.Files info))) (some s)).2 with
  | some e' =>
    rw [hf] at hfault
    simp only [Option.some.injEq] at hfault ⊢
    subst hfault
    obtain ⟨pre, m, post, h1, h2, h3⟩ := sendAll_fault_split hf
    refine ⟨pre, m, post ++ fixedMetrics beatInfo.Beat, ?_, ?_, h2, h3, trivial⟩
    · rw [h1]; simp
    · rw [h1]; exact List.prefix_append _ _
  | none =>
    rw [hf] at hfault
    simp only at hfault ⊢
    have hv : validNamespace beatInfo.Beat = false := by
      cases hv : validNamespace beatInfo.Beat with
      | false => rfl
      | true =>
        rw [(sendAll_fixed beatInfo.Beat s).1 hv] at hfault
        cases hfault
    have hfix := (sendAll_fixed beatInfo.Beat s).2 hv
    rw [hfix] at hfault ⊢
    simp only [Option.some.injEq] at hfault
    subst hfault
    have herr := fixedMetrics_err beatInfo.Beat _
      (List.mem_cons_self _ _ : _ ∈ fixedMetrics beatInfo.Beat)
    rw [hv] at herr
    refine ⟨_, _, _, rfl, List.prefix_refl _, ?_, ?_, by simp⟩
    · simpa using sendAll_forall₂ hf
    · simp only [newMetric, evalField, MustNewConstMetric, herr, Bool.not_false, if_true]

/-- C15 (amended): for every snapshot and either loop-variable semantics, when `Collect`
faults it has already sent, in order, one observation for each entry that precedes the
faulting one, each being the metric built from its entry (its descriptor, value type and
evaluated value), and nothing else: the entries (per-file entries in the order
`buildFileInfoMetrics` returned them, then the fixed catalog) split at the entry `m` on
which building the metric faults, the entries before it are per-file entries, so no
fixed-catalog observation is sent. -/
theorem collect_fault_sent (sem : LoopVar) (beatInfo : BeatInfo) (stats0 : Option Stats)
    (s : Stats) (e : Fault)
    (hfault : (Collect sem (atSnapshot (NewFilebeatCollector beatInfo stats0) s)).2 = some e) :
    ∃ dyn pre m post,
      buildFileInfoMetrics sem (atSnapshot (NewFilebeatCollector beatInfo stats0) s) = .ok dyn
      ∧ dyn ++ (NewFilebeatCollector beatInfo stats0).metrics = pre ++ m :: post
      ∧ pre <+: dyn
      ∧ List.Forall₂
          (fun o m => newMetric m (some s) = .ok o ∧ o.desc = m.desc ∧ o.valType = m.valType
            ∧ m.eval (some s) = .ok o.value)
          (Collect sem (atSnapshot (NewFilebeatCollector beatInfo stats0) s)).1 pre
      ∧ newMetric m (some s) = .error e
      ∧ (Collect sem (atSnapshot (NewFilebeatCollector beatInfo stats0) s)).1.filter isPerFile
          = (Collect sem (atSnapshot (NewFilebeatCollector beatInfo stats0) s)).1 := by
  obtain ⟨pre, m, post, h1, h2, h3, h4, h5⟩ := collect_fault_split sem beatInfo stats0 s e hfault
  refine ⟨_, pre, m, post, buildFileInfoMetrics_eq sem _ s rfl, h1, h2, ?_, h4, ?_⟩
  · exact h3.imp (fun o m h =>
      let ⟨h1, _, h3, h4⟩ := (newMetric_ok_iff m (some s) o).1 h
      ⟨h, h3, h4, h1⟩)
  · rw [h5]; exact isPerFile_dyn

/-- Witness of C15 (amended): the pass over the single record with absent `start_time`
faults at the fourth entry, the `start_time` entry of `a.log`, having sent the
observations of the three entries before it. -/
theorem collect_fault_sent_witness :
    ∃ dyn pre m post,
      buildFileInfoMetrics .perLoop (atSnapshot (NewFilebeatCollector sampleBeat none)
        (sampleStats [("key1", sampleFile "a.log" 100 none)])) = .ok dyn
      ∧ dyn ++ (NewFilebeatCollector sampleBeat none).metrics = pre ++ m :: post
      ∧ List.Forall₂
          (fun o m =>
            newMetric m (some (sampleStats [("key1", sampleFile "a.log" 100 none)])) = .ok o
            ∧ o.desc = m.desc ∧ o.valType = m.valType
            ∧ m.eval (some (sampleStats [("key1", sampleFile "a.log" 100 none)]))
                = .ok o.value)
          (Collect .perLoop (atSnapshot (NewFilebeatCollector sampleBeat none)
            (sampleStats [("key1", sampleFile "a.log" 100 none)]))).1 pre
      ∧ newMetric m (some (sampleStats [("key1", sampleFile "a.log" 100 none)]))
          = .error .nilDeref
      ∧ (Collect .perLoop (atSnapshot (NewFilebeatCollector sampleBeat none)
            (sampleStats [("key1", sampleFile "a.log" 100 none)]))).1.length = 3 := by
  obtain ⟨dyn, pre, m, post, h1, h2, -, h4, h5, -⟩ := collect_fault_sent .perLoop sampleBeat
    none (sampleStats [("key1", sampleFile "a.log" 100 none)]) .nilDeref (by decide)
  exact ⟨dyn, pre, m, post, h1, h2, h4, h5, by decide⟩

/-- C16: for every snapshot on which no evaluator faults and either loop-variable
semantics, `Collect` sends one observation per entry, each with the descriptor, value
type and evaluated value of its entry: first the per-file entries in the order
`buildFileInfoMetrics` returned them, then the fixed catalog in catalog order (events
active, added, done; harvester closed, open_files, running, skipped, started; files
renamed, truncated). -/
theorem collect_order (sem : LoopVar) (beatInfo : BeatInfo) (stats0 : Option Stats)
    (s : Stats)
    (hnone : (Collect sem (atSnapshot (NewFilebeatCollector beatInfo stats0) s)).2 = none) :
    ∃ dyn, buildFileInfoMetrics sem (atSnapshot (NewFilebeatCollector beatInfo stats0) s)
        = .ok dyn
      ∧ List.Forall₂
          (fun o m => o.desc = m.desc ∧ o.valType = m.valType
            ∧ m.eval (some s) = .ok o.value)
          (Collect sem (atSnapshot (NewFilebeatCollector beatInfo stats0) s)).1
          (dyn ++ (NewFilebeatCollector beatInfo stats0).metrics)
      ∧ (Collect sem (atSnapshot (NewFilebeatCollector beatInfo stats0) s)).1.map
          (fun o => o.desc)
        = descs dyn ++ descs (NewFilebeatCollector beatInfo stats0).metrics
      ∧ (descs (NewFilebeatCollector beatInfo stats0).metrics).map (fun d => d.constLabels)
        = [[("event", "active")], [("event", "added")], [("event", "done")],
           [("harvester", "closed")], [("harvester", "open_files")],
           [("harvester", "running")], [("harvester", "skipped")],
           [("harvester", "started")],
           [("files", "renamed")], [("files", "truncated")]] := by
  have hd := buildFileInfoMetrics_eq sem (atSnapshot (NewFilebeatCollector beatInfo stats0) s)
    s rfl
  have hnone' := hnone
  rw [collect_eq_sendAll sem _ s rfl] at hnone'
  refine ⟨_, hd, ?_, collect_descs_of_no_fault sem _ s rfl hnone, rfl⟩
  rw [collect_eq_sendAll sem _ s rfl]
  exact (sendAll_forall₂ hnone').imp (fun o m h =>
    let ⟨h1, _, h3, h4⟩ := (newMetric_ok_iff m (some s) o).1 h
    ⟨h3, h4, h1⟩)

/-- Witness of C16: the pass over two differently named files ends without a fault and
sends twenty observations, the ten per-file ones first, then the fixed catalog. -/
theorem collect_order_witness :
    (∃ dyn, buildFileInfoMetrics .perLoop (atSnapshot (NewFilebeatCollector sampleBeat none)
          (sampleStats [("key1", sampleFile "a.log" 100 (some sampleTime)),
                        ("key2", sampleFile "b.log" 555 (some sampleTime))])) = .ok dyn
        ∧ (Collect .perLoop (atSnapshot (NewFilebeatCollector sampleBeat none)
            (sampleStats [("key1", sampleFile "a.log" 100 (some sampleTime)),
                          ("key2", sampleFile "b.log" 555 (some sampleTime))]))).1.map
            (fun o => o.desc)
          = descs dyn ++ descs (NewFilebeatCollector sampleBeat none).metrics)
    ∧ (Collect .perLoop (atSnapshot (NewFilebeatCollector sampleBeat none)
        (sampleStats [("key1", sampleFile "a.log" 100 (some sampleTime)),
                      ("key2", sampleFile "b.log" 555 (some sampleTime))]))).1.map
        (fun o => o.desc.constLabels)
      = [[("path", "a.log")], [("path", "a.log")], [("path", "a.log")], [("path", "a.log")],
         [("path", "a.log")], [("path", "b.log")], [("path", "b.log")], [("path", "b.log")],
         [("path", "b.log")], [("path", "b.log")],
         [("event", "active")], [("event", "added")], [("event", "done")],
         [("harvester", "closed")], [("harvester", "open_files")],
         [("harvester", "running")], [("harvester", "skipped")],
         [("harvester", "started")],
         [("files", "renamed")], [("files", "truncated")]] := by
  refine ⟨?_, by decide⟩
  obtain ⟨dyn, h1, -, h3, -⟩ := collect_order .perLoop sampleBeat none
    (sampleStats [("key1", sampleFile "a.log" 100 (some sampleTime)),
                  ("key2", sampleFile "b.log" 555 (some sampleTime))]) (by decide)
  exact ⟨dyn, h1, h3⟩

/-! ## Identities within one pass (C17) -/

theorem string_append_cancel (p a b : String) (h : p ++ a = p ++ b) : a = b := by
  have h' := congrArg String.data h
  simp only [String.data_append] at h'
  exact String.ext (List.append_cancel_left h')

theorem BuildFQName_field_inj (ns sub a b : String) (ha : a ≠ "") (hb : b ≠ "")
    (h : BuildFQName ns sub a = BuildFQName ns sub b) : a = b := by
  unfold BuildFQName at h
  simp only [ha, hb, if_false] at h
  by_cases hns : ns = "" <;> by_cases hsub : sub = "" <;>
    simp only [hns, hsub, ne_eq, not_true_eq_false, not_false_eq_true, and_self, and_false,
      false_and, if_true, if_false] at h
  · exact h
  · exact string_append_cancel _ _ _ h
  · exact string_append_cancel _ _ _ h
  · exact string_append_cancel _ _ _ h

theorem idents_fileInfoMetrics (beat : String) (info cap : HarvesterFile) :
    (descs (fileInfoMetrics beat info cap)).map Desc.ident
      = (["size_bytes", "last_event_published_time", "last_event_timestamp", "start_time",
          "file_read_offset"].map (BuildFQName beat "harvester")).map
          (fun name => (name, [("path", info.Name)])) := rfl

theorem nodup_idents_fileInfoMetrics (beat : String) (info cap : HarvesterFile) :
    ((descs (fileInfoMetrics beat info cap)).map Desc.ident).Nodup := by
  rw [idents_fileInfoMetrics]
  refine List.Nodup.map_on (fun x _ y _ h => (Prod.mk.inj h).1) ?_
  refine List.Nodup.map_on ?_ (by decide)
  intro x hx y hy h
  have hx' : x ≠ "" := by
    simp only [List.mem_cons, List.mem_singleton, List.not_mem_nil, or_false] at hx
    rcases hx with e | e | e | e | e <;> subst e <;> decide
  have hy' : y ≠ "" := by
    simp only [List.mem_cons, List.mem_singleton, List.not_mem_nil, or_false] at hy
    rcases hy with e | e | e | e | e <;> subst e <;> decide
  exact BuildFQName_field_inj _ _ _ _ hx' hy' h

theorem mem_idents_dyn {beat : String} {cap : HarvesterFile → HarvesterFile}
    {l : List HarvesterFile} {x : String × Labels}
    (hx : x ∈ (descs (l.flatMap (fun info => fileInfoMetrics beat info (cap info)))).map
      Desc.ident) :
    ∃ info ∈ l, x.2 = [("path", info.Name)] := by
  obtain ⟨d, hd, rfl⟩ := List.mem_map.1 hx
  obtain ⟨m, hm, rfl⟩ := List.mem_map.1 hd
  obtain ⟨info, hinfo, hmi⟩ := List.mem_flatMap.1 hm
  exact ⟨info, hinfo, mem_fileInfoMetrics_labels hmi⟩

theorem nodup_idents_dyn (beat : String) (cap : HarvesterFile → HarvesterFile)
    (l : List HarvesterFile) (hnd : (l.map (fun i => i.Name)).Nodup) :
    ((descs (l.flatMap (fun info => fileInfoMetrics beat info (cap info)))).map
      Desc.ident).Nodup := by
  induction l with
  | nil => simp [descs]
  | cons a l ih =>
    simp only [List.map_cons, List.nodup_cons] at hnd
    have happ : (descs ((a :: l).flatMap (fun info => fileInfoMetrics beat info (cap info)))).map
          Desc.ident
        = (descs (fileInfoMetrics beat a (cap a))).map Desc.ident
          ++ (descs (l.flatMap (fun info => fileInfoMetrics beat info (cap info)))).map
              Desc.ident := by
      simp [descs, List.flatMap_cons]
    rw [happ, List.nodup_append]
    refine ⟨nodup_idents_fileInfoMetrics beat a (cap a), ih hnd.2, ?_⟩
    intro x hx1 hx2
    have h1 : x.2 = [("path", a.Name)] := by
      obtain ⟨d, hd, rfl⟩ := List.mem_map.1 hx1
      obtain ⟨m, hm, rfl⟩ := List.mem_map.1 hd
      exact mem_fileInfoMetrics_labels hm
    obtain ⟨info, hinfo, h2⟩ := mem_idents_dyn hx2
    rw [h1] at h2
    have hname : a.Name = info.Name := by simpa using h2
    exact hnd.1 (hname ▸ List.mem_map.2 ⟨info, hinfo, rfl⟩)

theorem labels_fixed (beat : String) :
    ((descs (fixedMetrics beat)).map Desc.ident).map Prod.snd
      = [[("event", "active")], [("event", "added")], [("event", "done")],
         [("harvester", "closed")], [("harvester", "open_files")],
         [("harvester", "running")], [("harvester", "skipped")],
         [("harvester", "started")],
         [("files", "renamed")], [("files", "truncated")]] := rfl

theorem nodup_idents_all (beat : String) (cap : HarvesterFile → HarvesterFile)
    (l : List HarvesterFile) (hnd : (l.map (fun i => i.Name)).Nodup) :
    ((descs (l.flatMap (fun info => fileInfoMetrics beat info (cap info)))
      ++ descs (fixedMetrics beat)).map Desc.ident).Nodup := by
  rw [List.map_append, List.nodup_append]
  refine ⟨nodup_idents_dyn beat cap l hnd, ?_, ?_⟩
  · apply List.Nodup.of_map Prod.snd
    rw [labels_fixed]
    decide
  · intro x hx1 hx2
    obtain ⟨info, -, h1⟩ := mem_idents_dyn hx1
    have h2 : x.2 ∈ ((descs (fixedMetrics beat)).map Desc.ident).map Prod.snd :=
      List.mem_map.2 ⟨x, hx2, rfl⟩
    rw [labels_fixed, h1] at h2
    simp at h2

theorem collect_descs_initial (sem : LoopVar) (c : filebeatCollector) (s : Stats)
    (hs : c.stats = some s) :
    (Collect sem c).1.map (fun o => o.desc)
      <+: descs ((firstSeen s.Filebeat.Harvester.Files []).flatMap (fun info =>
            fileInfoMetrics c.beatInfo.Beat info
              (capturedInfo sem s.Filebeat.Harvester.Files info)))
          ++ descs c.metrics := by
  rw [collect_eq_sendAll sem c s hs]
  have h := sendAll_descs_initial ((firstSeen s.Filebeat.Harvester.Files []).flatMap
    (fun info => fileInfoMetrics c.beatInfo.Beat info
      (capturedInfo sem s.Filebeat.Harvester.Files info)) ++ c.metrics) (some s)
  simpa [descs] using h

/-- C17: for every `BeatInfo`, every snapshot and either loop-variable semantics, the
observations sent in one `Collect` pass have pairwise distinct identities
(fully-qualified name together with constant label set): the list of identities of the
observations sent has no duplicate, whether they are per-file or fixed. -/
theorem collect_identities_nodup (sem : LoopVar) (beatInfo : BeatInfo)
    (stats0 : Option Stats) (s : Stats) :
    ((Collect sem (atSnapshot (NewFilebeatCollector beatInfo stats0) s)).1.map
      (fun o => o.desc.ident)).Nodup := by
  have hp := collect_descs_initial sem (atSnapshot (NewFilebeatCollector beatInfo stats0) s)
    s rfl
  have hn := nodup_idents_all beatInfo.Beat (capturedInfo sem s.Filebeat.Harvester.Files)
    (firstSeen s.Filebeat.Harvester.Files []) (nodup_firstSeen_name _ [])
  have hm : (Collect sem (atSnapshot (NewFilebeatCollector beatInfo stats0) s)).1.map
        (fun o => o.desc.ident)
      = ((Collect sem (atSnapshot (NewFilebeatCollector beatInfo stats0) s)).1.map
          (fun o => o.desc)).map Desc.ident := by
    simp
  rw [hm]
  exact List.Nodup.sublist (hp.map Desc.ident).sublist hn

/-! ## Both loop-variable semantics: values and faults of the per-file evaluators -/

/-- The values of the per-file observations, for either loop-variable semantics: an
observation labelled `path=n` that `Collect` sends belongs to the first record named `n`
that the pass visits, and carries the fields of the record its evaluators read, which is
that first record with a variable per iteration and the last record visited with a shared
loop variable. -/
theorem collect_perFile_values (sem : LoopVar) (beatInfo : BeatInfo) (stats0 : Option Stats)
    (s : Stats) (o : ConstMetric) (n : String)
    (ho : o ∈ (Collect sem (atSnapshot (NewFilebeatCollector beatInfo stats0) s)).1)
    (hl : o.desc.constLabels = [("path", n)]) :
    ∃ k info, s.Filebeat.Harvester.Files.find? (fun e => e.2.Name == n) = some (k, info)
      ∧ (o.desc.help = "filebeat.harvester.file.size"
          → o.valType = .GaugeValue
            ∧ o.value = (capturedInfo sem s.Filebeat.Harvester.Files info).Size)
      ∧ (o.desc.help = "filebeat.harvester.file.file_read_offset"
          → o.valType = .GaugeValue
            ∧ o.value = (capturedInfo sem s.Filebeat.Harvester.Files info).ReadOffset)
      ∧ (o.desc.help = "filebeat.harvester.file.start_time"
          → o.valType = .UntypedValue
            ∧ ∃ t, (capturedInfo sem s.Filebeat.Harvester.Files info).StartTime = some t
              ∧ o.value = float64OfInt64 t.UTC.Unix)
      ∧ (o.desc.help = "filebeat.harvester.file.last_event_published_time"
          → o.valType = .UntypedValue
            ∧ ∃ ft, (capturedInfo sem s.Filebeat.Harvester.Files info).LastEventPublishedTime
                  = some ft
              ∧ o.value = (match ft.Time with
                            | some t => float64OfInt64 t.UTC.Unix
                            | none => 0))
      ∧ (o.desc.help = "filebeat.harvester.file.last_event_timestamp"
          → o.valType = .UntypedValue
            ∧ ∃ ft, (capturedInfo sem s.Filebeat.Harvester.Files info).LastEventTimestamp
                  = some ft
              ∧ o.value = (match ft.Time with
                            | some t => float64OfInt64 t.UTC.Unix
                            | none => 0)) := by
  obtain ⟨m, hm, hev, hd, hv⟩ := collect_mem sem _ s rfl ho
  rcases hm with hm | hm
  · obtain ⟨info, hinfo, hmi⟩ := List.mem_flatMap.1 hm
    have hlab := mem_fileInfoMetrics_labels hmi
    rw [← hd, hl] at hlab
    have hname : info.Name = n := by simpa using hlab.symm
    obtain ⟨k, hk⟩ := firstSeen_find _ _ _ hinfo
    rw [hname] at hk
    refine ⟨k, info, hk, ?_⟩
    generalize capturedInfo sem s.Filebeat.Harvester.Files info = r at hmi ⊢
    simp only [fileInfoMetrics, List.mem_cons, List.mem_singleton, List.not_mem_nil,
      or_false] at hmi
    rcases hmi with e | e | e | e | e <;> subst e <;>
      simp only [NewDesc] at hd hv hev <;> rw [hd, hv]
    · refine ⟨fun _ => ⟨rfl, ?_⟩, ?_, ?_, ?_, ?_⟩
      · simpa [evalSize] using hev.symm
      all_goals (intro hh; exact absurd hh (by dsimp only; decide))
    · refine ⟨?_, ?_, ?_, fun _ => ⟨rfl, ?_⟩, ?_⟩
      · intro hh; exact absurd hh (by dsimp only; decide)
      · intro hh; exact absurd hh (by dsimp only; decide)
      · intro hh; exact absurd hh (by dsimp only; decide)
      · unfold evalLastEventPublishedTime at hev
        cases hp : r.LastEventPublishedTime with
        | none => simp [hp] at hev
        | some ft =>
          refine ⟨ft, rfl, ?_⟩
          cases hft : ft.Time <;> simp [hp, hft] at hev ⊢ <;> exact hev.symm
      · intro hh; exact absurd hh (by dsimp only; decide)
    · refine ⟨?_, ?_, ?_, ?_, fun _ => ⟨rfl, ?_⟩⟩
      · intro hh; exact absurd hh (by dsimp only; decide)
      · intro hh; exact absurd hh (by dsimp only; decide)
      · intro hh; exact absurd hh (by dsimp only; decide)
      · intro hh; exact absurd hh (by dsimp only; decide)
      · unfold evalLastEventTimestamp at hev
        cases hp : r.LastEventTimestamp with
        | none => simp [hp] at hev
        | some ft =>
          refine ⟨ft, rfl, ?_⟩
          cases hft : ft.Time <;> simp [hp, hft] at hev ⊢ <;> exact hev.symm
    · refine ⟨?_, ?_, fun _ => ⟨rfl, ?_⟩, ?_, ?_⟩
      · intro hh; exact absurd hh (by dsimp only; decide)
      · intro hh; exact absurd hh (by dsimp only; decide)
      · unfold evalStartTime at hev
        cases hp : r.StartTime with
        | none => simp [hp] at hev
        | some t => exact ⟨t, rfl, by simpa [hp] using hev.symm⟩
      · intro hh; exact absurd hh (by dsimp only; decide)
      · intro hh; exact absurd hh (by dsimp only; decide)
    · refine ⟨?_, fun _ => ⟨rfl, ?_⟩, ?_, ?_, ?_⟩
      · intro hh; exact absurd hh (by dsimp only; decide)
      · simpa [evalReadOffset] using hev.symm
      all_goals (intro hh; exact absurd hh (by dsimp only; decide))
  · exfalso
    simp only [atSnapshot, NewFilebeatCollector, fixedMetrics, List.mem_cons,
      List.mem_singleton, List.not_mem_nil, or_false] at hm
    rcases hm with h | h | h | h | h | h | h | h | h | h <;> subst h <;>
      simp [hd, NewDesc] at hl

/-- With a variable per iteration, a pass over a snapshot in which a record that
survives deduplication has an absent `start_time` ends in a fault. -/
theorem collect_perIteration_start_time_fault (beatInfo : BeatInfo) (stats0 : Option Stats)
    (s : Stats) (info : HarvesterFile) (hinfo : info ∈ firstSeen s.Filebeat.Harvester.Files [])
    (hstart : info.StartTime = none) :
    ∃ e, (Collect .perIteration (atSnapshot (NewFilebeatCollector beatInfo stats0) s)).2
      = some e := by
  cases hf : (Collect .perIteration (atSnapshot (NewFilebeatCollector beatInfo stats0) s)).2 with
  | some e => exact ⟨e, rfl⟩
  | none =>
    exfalso
    rw [collect_eq_sendAll .perIteration _ s rfl] at hf
    have hm : ({ desc := NewDesc (BuildFQName beatInfo.Beat "harvester" "start_time")
                  "filebeat.harvester.file.start_time" [("path", info.Name)],
                 eval := evalStartTime info,
                 valType := .UntypedValue } : Metric)
        ∈ (firstSeen s.Filebeat.Harvester.Files []).flatMap (fun info =>
            fileInfoMetrics (atSnapshot (NewFilebeatCollector beatInfo stats0) s).beatInfo.Beat
              info (capturedInfo .perIteration s.Filebeat.Harvester.Files info))
          ++ (atSnapshot (NewFilebeatCollector beatInfo stats0) s).metrics := by
      refine List.mem_append_left _ (List.mem_flatMap.2 ⟨info, hinfo, ?_⟩)
      simp [fileInfoMetrics, capturedInfo, atSnapshot, NewFilebeatCollector]
    obtain ⟨⟨v, hv⟩, -⟩ := sendAll_all_ok hf _ hm
    simp [evalStartTime, hstart] at hv

/-- The conversion `float64(n)` is exact on integers of at most 53 bits, which include the
Unix seconds of every instant an RFC 3339 text can denote. -/
theorem float64OfInt64_exact (n : Int) (h : n.natAbs < 2 ^ 53) : float64OfInt64 n = (n : ℚ) := by
  have hr : List.range 12 = 0 :: (List.range 11).map (· + 1) := by decide
  have hf : (List.range 12).find? (fun s => decide (n.natAbs / 2 ^ s < 2 ^ 53)) = some 0 := by
    rw [hr, List.find?_cons_of_pos]
    simpa using h
  unfold float64OfInt64
  simp only [hf, Option.getD_some, pow_zero, Nat.div_one, Nat.mod_one, mul_zero, mul_one]
  have h1 : ¬ (1 < 0 ∨ (0 = 1 ∧ n.natAbs % 2 = 1)) := by omega
  rw [if_neg h1]
  by_cases hn : n < 0
  · rw [if_pos hn]
    have : ((n.natAbs : Int) : ℚ) = ((-n : Int) : ℚ) := by
      congr 1
      omega
    rw [← Int.cast_natCast, this]
    push_cast
    ring
  · rw [if_neg hn]
    have : ((n.natAbs : Int) : ℚ) = ((n : Int) : ℚ) := by
      congr 1
      omega
    rw [← Int.cast_natCast, this]

end Collector
